import Mathlib

/-!
# Sir_Locks_A_Lot: the door relay service and its line codec

A shallow embedding of the poll-based relay of `Raspberry-pi-3B/include`:

* `json_parser.hpp`: `SimpleJSON::parse`, `SimpleJSON::stringify`, `SimpleJSON::trim`;
* `database_logger.hpp`: `DatabaseLogger::logEvent`;
* `door_relay_service.hpp`: `DoorRelayService::handleSerialMessage`,
  `DoorRelayService::handleTcpMessage`.

A `std::string` is the list of its characters.  A `std::unordered_map` is an
association list holding at most one entry per key; the order in which the
hash table is iterated is not fixed by the language, so it is an explicit
parameter (`IterationOrder`) of everything that iterates a map.
-/

namespace SirLocksALot

/-- A `std::string`, as the list of its characters. -/
abbrev Str := List Char

/-! ## `std::string` members used by the parser -/

/-- The member `std::string::find(char)`: index of the first occurrence, `none` for `npos`. -/
def find (c : Char) : Str → Option Nat
  | [] => none
  | x :: xs => if x = c then some 0 else (find c xs).map (· + 1)

/-- The member `std::string::find_first_not_of(set)`: index of the first character that is
not in `set`, `none` for `npos`. -/
def find_first_not_of (set : Str) : Str → Option Nat
  | [] => none
  | x :: xs => if x ∈ set then (find_first_not_of set xs).map (· + 1) else some 0

/-- The member `std::string::find_last_not_of(set)`: index of the last character that is
not in `set`, `none` for `npos`. -/
def find_last_not_of (set : Str) : Str → Option Nat
  | [] => none
  | x :: xs =>
    match find_last_not_of set xs with
    | some i => some (i + 1)
    | none => if x ∈ set then none else some 0

/-- The member `std::string::substr(pos, len)`, for `pos` within the string. -/
def substr (s : Str) (pos len : Nat) : Str := (s.drop pos).take len

/-- The member `std::string::substr(pos)`: everything from `pos` on. -/
def substrFrom (s : Str) (pos : Nat) : Str := s.drop pos

/-- The characters `" \t"` that `trim` strips. -/
def blanks : Str := [' ', '\t']

/-- `SimpleJSON::trim`.  When `find_first_not_of` finds a character, so does
`find_last_not_of`; the remaining branch keeps the `size_t` arithmetic of the source
(`npos - first + 1` modulo `2^64`). -/
def trim (str : Str) : Str :=
  match find_first_not_of blanks str with
  | none => []
  | some first =>
    match find_last_not_of blanks str with
    | some last => substr str first (last - first + 1)
    | none => substr str first ((2 ^ 64 - 1 + 2 ^ 64 - first + 1) % 2 ^ 64)

/-- The loop `while (std::getline(ss, pair, delim))`: the successive segments read from the
stream.  A read at end of input extracts nothing and fails, so the text after a final
delimiter is not a segment, and the empty input has no segment. -/
def getlines (delim : Char) : Str → List Str
  | [] => []
  | c :: cs =>
    if c = delim then [] :: getlines delim cs
    else
      match getlines delim cs with
      | [] => [[c]]
      | seg :: rest => (c :: seg) :: rest

/-! ## `SimpleJSON::Object` -/

/-- `SimpleJSON::Object`, a `std::unordered_map<std::string, std::string>`. -/
abbrev Object := List (Str × Str)

namespace Object

/-- The member `find(key)`: the mapped value, `none` for `end()`. -/
def find : Object → Str → Option Str
  | [], _ => none
  | (k, v) :: rest, key => if k = key then some v else find rest key

/-- Assignment `obj[key] = value`: overwrite the entry of `key`, or add one. -/
def set : Object → Str → Str → Object
  | [], key, value => [(key, value)]
  | (k, v) :: rest, key, value =>
    if k = key then (k, value) :: rest else (k, v) :: set rest key value

/-- Read access `obj[key]`: the mapped value, the empty string for a key that is absent
(the source then also inserts the empty entry, into a map that is local to the handler). -/
def index (obj : Object) (key : Str) : Str := (obj.find key).getD []

/-- The keys of a map. -/
def keys (obj : Object) : List Str := obj.map Prod.fst

/-- Two association lists denote the same map when they hold the same entries. -/
def sameMap (a b : Object) : Prop := List.Perm a b

instance (a b : Object) : Decidable (sameMap a b) := by
  unfold sameMap; infer_instance

end Object

/-- An iteration order of `std::unordered_map`: some enumeration of the entries in which each
entry occurs exactly once. -/
structure IterationOrder where
  /-- The entries in the order a range-for visits them. -/
  enum : Object → List (Str × Str)
  /-- Each entry is visited once. -/
  perm : ∀ obj : Object, List.Perm (enum obj) obj

/-- Iteration in insertion order. -/
def IterationOrder.insertion : IterationOrder := ⟨fun obj => obj, fun _ => List.Perm.refl _⟩

/-- Iteration in reverse insertion order. -/
def IterationOrder.reversed : IterationOrder :=
  ⟨fun obj => obj.reverse, fun obj => List.reverse_perm obj⟩

/-! ## `SimpleJSON` -/

namespace SimpleJSON

/-- The predicate of the `remove_if` in `parse`. -/
def isRemoved (c : Char) : Bool := c == '{' || c == '}' || c == '\n' || c == '\r'

/-- The erase-remove of the double quote: `s.erase(std::remove(s.begin(), s.end(), '"'), s.end())`. -/
def removeQuotes (s : Str) : Str := s.filter (fun c => c != '"')

/-- Body of the `while` loop of `parse` for one segment `pair`. -/
def parsePair (result : Object) (pair : Str) : Object :=
  match find ':' pair with
  | none => result
  | some colonPos =>
    let key := trim (substr pair 0 colonPos)
    let value := trim (substrFrom pair (colonPos + 1))
    result.set (removeQuotes key) (removeQuotes value)

/-- `SimpleJSON::parse`. -/
def parse (json : Str) : Object :=
  let cleaned := json.filter (fun c => !isRemoved c)
  (getlines ',' cleaned).foldl parsePair []

/-- The range-for of `stringify` over the entries in iteration order; `first` is the flag of
the source. -/
def stringifyLoop : List (Str × Str) → Bool → Str
  | [], _ => []
  | (key, value) :: rest, first =>
    (if first then [] else [',']) ++ ['"'] ++ key ++ ['"', ':', '"'] ++ value ++ ['"']
      ++ stringifyLoop rest false

/-- `SimpleJSON::stringify`, for the iteration order `ord` of the map. -/
def stringify (ord : IterationOrder) (obj : Object) : Str :=
  ['{'] ++ stringifyLoop (ord.enum obj) true ++ ['}']

end SimpleJSON

/-! ## `DatabaseLogger` -/

/-- A row of table `door_events`: `state`, `source`, and the `timestamp` column, which the
schema fills with `DEFAULT CURRENT_TIMESTAMP`.  The `id` of a row is its position. -/
structure HistoryEntry where
  /-- Column `state`. -/
  state : Str
  /-- Column `source`. -/
  source : Str
  /-- Column `timestamp`. -/
  timestamp : Str
deriving DecidableEq

/-- What the outside world decides during one call of `DatabaseLogger::logEvent`. -/
structure LogEnv where
  /-- Whether `sqlite3_prepare_v2` returns `SQLITE_OK`. -/
  prepareOk : Bool
  /-- Whether `sqlite3_step` returns `SQLITE_DONE`. -/
  stepOk : Bool
  /-- The value of `CURRENT_TIMESTAMP` when the row is inserted. -/
  currentTimestamp : Str
  /-- Whether the daily text file opens for appending. -/
  fileOpens : Bool
  /-- The local time `%Y-%m-%d %H:%M:%S` written to the text file. -/
  localTime : Str
deriving DecidableEq

/-- The persisted state behind a `DatabaseLogger`: the rows of `door_events`, oldest first,
and the lines of the dated text log. -/
structure DatabaseLogger where
  /-- Table `door_events`. -/
  door_events : List HistoryEntry
  /-- Lines appended to the text log. -/
  log_file : List Str
deriving DecidableEq

namespace DatabaseLogger

/-- `DatabaseLogger::logToFile`. -/
def logToFile (self : DatabaseLogger) (env : LogEnv) (state source : Str) : DatabaseLogger :=
  if env.fileOpens then
    { self with
      log_file := self.log_file ++
        [env.localTime ++ " - State: ".toList ++ state ++ ", Source: ".toList ++ source] }
  else self

/-- `DatabaseLogger::logEvent`: `INSERT INTO door_events (state, source) VALUES (?, ?)`, then
the text log.  An exception is `Except.error` with its `what()`. -/
def logEvent (self : DatabaseLogger) (env : LogEnv) (state source : Str) :
    Except String DatabaseLogger :=
  if !env.prepareOk then Except.error "Failed to prepare statement"
  else if !env.stepOk then Except.error "Failed to insert event"
  else
    Except.ok
      (logToFile
        { self with door_events := self.door_events ++ [⟨state, source, env.currentTimestamp⟩] }
        env state source)

end DatabaseLogger

/-! ## `DoorRelayService` -/

/-- The calls a handler makes on its collaborators, in program order. -/
inductive Effect where
  /-- The call `serial_port_->writeLine(data)`. -/
  | serialWrite (data : Str)
  /-- The call `tcp_server_->writeLine(data)`. -/
  | tcpWrite (data : Str)
  /-- The call `db_logger_->logEvent(state, source)`. -/
  | logEvent (state source : Str)
  /-- The line printed to `std::cerr` by a `catch` block. -/
  | cerr (text : String)
deriving DecidableEq

/-- The lines written to the microcontroller peer. -/
def serialWrites : List Effect → List Str
  | [] => []
  | Effect.serialWrite d :: rest => d :: serialWrites rest
  | _ :: rest => serialWrites rest

/-- The lines written to the control client. -/
def tcpWrites : List Effect → List Str
  | [] => []
  | Effect.tcpWrite d :: rest => d :: tcpWrites rest
  | _ :: rest => tcpWrites rest

/-- The calls of `DatabaseLogger::logEvent`, as (state, source). -/
def logCalls : List Effect → List (Str × Str)
  | [] => []
  | Effect.logEvent st src :: rest => (st, src) :: logCalls rest
  | _ :: rest => logCalls rest

/-- The fields of `DoorRelayService` that the handlers read or write; `hasClient` is
`tcp_server_->hasClient()`. -/
structure DoorRelayService where
  /-- Field `current_door_state_`. -/
  current_door_state_ : Str
  /-- Field `last_event_source_`. -/
  last_event_source_ : Str
  /-- Field `last_event_timestamp_`. -/
  last_event_timestamp_ : Str
  /-- The database behind `db_logger_`. -/
  db_logger_ : DatabaseLogger
  /-- Whether `tcp_server_` holds a client connection. -/
  hasClient : Bool
deriving DecidableEq

namespace DoorRelayService

/-- The constructor: the door starts `"locked"`, source and timestamp start empty, and no
client is connected.  The database file may hold rows of earlier runs. -/
def new (db : DatabaseLogger) : DoorRelayService :=
  { current_door_state_ := "locked".toList
    last_event_source_ := []
    last_event_timestamp_ := []
    db_logger_ := db
    hasClient := false }

/-- The acknowledgment built by both handlers: `ack["type"] = "ack"; ack["status"] = "ok"`. -/
def ack : Object :=
  (Object.set (Object.set [] "type".toList "ack".toList) "status".toList "ok".toList)

/-- The validation `json.find("source") != json.end() && json.find("event") != json.end() &&
json["source"] == "stm32"` of `handleSerialMessage`. -/
def isDeviceEvent (json : Object) : Bool :=
  (json.find "source".toList).isSome && (json.find "event".toList).isSome &&
    decide (json.index "source".toList = "stm32".toList)

/-- `DoorRelayService::handleSerialMessage`, for the line `message` returned by
`serial_port_->readLine()`. -/
def handleSerialMessage (ord : IterationOrder) (env : LogEnv) (self : DoorRelayService)
    (message : Str) : DoorRelayService × List Effect :=
  if message = [] then (self, [])
  else
    let json := SimpleJSON.parse message
    if isDeviceEvent json then
      let s1 : DoorRelayService :=
        if json.index "event".toList = "door_locked".toList then
          { self with current_door_state_ := "locked".toList }
        else if json.index "event".toList = "door_unlocked".toList then
          { self with current_door_state_ := "unlocked".toList }
        else self
      let s2 : DoorRelayService :=
        { s1 with
          last_event_source_ := json.index "source".toList
          last_event_timestamp_ := json.index "timestamp".toList }
      let call := Effect.logEvent s2.current_door_state_ s2.last_event_source_
      match s2.db_logger_.logEvent env s2.current_door_state_ s2.last_event_source_ with
      | Except.error e => (s2, [call, Effect.cerr ("Error handling serial message: " ++ e)])
      | Except.ok db =>
        ({ s2 with db_logger_ := db },
          [call, Effect.serialWrite (SimpleJSON.stringify ord ack)] ++
            (if s2.hasClient then [Effect.tcpWrite message] else []))
    else (self, [])

/-- The SyncResponse built by `handleTcpMessage`. -/
def syncResponse (self : DoorRelayService) : Object :=
  Object.set
    (Object.set
      (Object.set (Object.set [] "type".toList "sync_response".toList)
        "door_state".toList self.current_door_state_)
      "last_source".toList self.last_event_source_)
    "last_timestamp".toList self.last_event_timestamp_

/-- The test `json.find("type") != json.end() && json["type"] == "SYNC"`. -/
def isSyncRequest (json : Object) : Bool :=
  (json.find "type".toList).isSome && decide (json.index "type".toList = "SYNC".toList)

/-- `DoorRelayService::handleTcpMessage`, for the line `message` returned by
`tcp_server_->readLine()`. -/
def handleTcpMessage (ord : IterationOrder) (self : DoorRelayService) (message : Str) :
    DoorRelayService × List Effect :=
  if message = [] then (self, [])
  else
    let json := SimpleJSON.parse message
    if isSyncRequest json then
      (self, [Effect.tcpWrite (SimpleJSON.stringify ord (syncResponse self))])
    else if (json.find "command".toList).isSome then
      let command := json.index "command".toList
      if command = "lock".toList ∨ command = "unlock".toList then
        (self, [Effect.serialWrite message, Effect.tcpWrite (SimpleJSON.stringify ord ack)])
      else (self, [])
    else (self, [])

/-- One thing the loop `run` does to the service. -/
inductive Input where
  /-- A line read from the serial port, with what the database does while it is handled. -/
  | serial (message : Str) (env : LogEnv)
  /-- A line read from the client socket. -/
  | tcp (message : Str)
  /-- `tcp_server_->acceptClient()` succeeds. -/
  | accept
  /-- `tcp_server_->closeClient()`. -/
  | closeClient

/-- The service and the effects after one input. -/
def step (ord : IterationOrder) (self : DoorRelayService) :
    Input → DoorRelayService × List Effect
  | Input.serial message env => handleSerialMessage ord env self message
  | Input.tcp message => handleTcpMessage ord self message
  | Input.accept => ({ self with hasClient := true }, [])
  | Input.closeClient => ({ self with hasClient := false }, [])

/-- The service after a sequence of inputs. -/
def run (ord : IterationOrder) (self : DoorRelayService) : List Input → DoorRelayService
  | [] => self
  | i :: rest => run ord (step ord self i).1 rest

/-- A state of the service that the loop can reach from a freshly constructed one. -/
def Reachable (ord : IterationOrder) (s : DoorRelayService) : Prop :=
  ∃ (db : DatabaseLogger) (inputs : List Input), s = run ord (new db) inputs

end DoorRelayService


/-! ## `SimpleJSON::parse` with the exceptions of `std::string::substr` -/

namespace SimpleJSON

/-- The member `std::string::substr(pos, len)`: it throws `std::out_of_range` when `pos`
exceeds the size of the string. -/
def substrChecked (s : Str) (pos len : Nat) : Except String Str :=
  if pos > s.length then Except.error "std::out_of_range" else Except.ok (substr s pos len)

/-- The member `std::string::substr(pos)`, with the same exception. -/
def substrFromChecked (s : Str) (pos : Nat) : Except String Str :=
  if pos > s.length then Except.error "std::out_of_range" else Except.ok (substrFrom s pos)

/-- `SimpleJSON::trim`, with the exception of its `substr`. -/
def trimChecked (str : Str) : Except String Str :=
  match find_first_not_of blanks str with
  | none => Except.ok []
  | some first =>
    match find_last_not_of blanks str with
    | some last => substrChecked str first (last - first + 1)
    | none => substrChecked str first ((2 ^ 64 - 1 + 2 ^ 64 - first + 1) % 2 ^ 64)

/-- Body of the `while` loop of `parse`, with the exceptions of `substr` and `trim`. -/
def parsePairChecked (result : Object) (pair : Str) : Except String Object :=
  match find ':' pair with
  | none => Except.ok result
  | some colonPos =>
    match substrChecked pair 0 colonPos with
    | Except.error e => Except.error e
    | Except.ok rawKey =>
      match trimChecked rawKey with
      | Except.error e => Except.error e
      | Except.ok key =>
        match substrFromChecked pair (colonPos + 1) with
        | Except.error e => Except.error e
        | Except.ok rawValue =>
          match trimChecked rawValue with
          | Except.error e => Except.error e
          | Except.ok value => Except.ok (result.set (removeQuotes key) (removeQuotes value))

/-- The `while` loop of `parse` over the segments still to read; an exception ends it. -/
def parseLoopChecked : List Str → Object → Except String Object
  | [], result => Except.ok result
  | pair :: rest, result =>
    match parsePairChecked result pair with
    | Except.error e => Except.error e
    | Except.ok next => parseLoopChecked rest next

/-- `SimpleJSON::parse` as a call that either returns a mapping or raises: `Except.error` is an
exception leaving `parse`.  The source has no other way to report a decode error. -/
def parseChecked (json : Str) : Except String Object :=
  parseLoopChecked (getlines ',' (json.filter (fun c => !isRemoved c))) []

end SimpleJSON

/-! ## `DoorControlClient` -/

/-- The field of `DoorControlClient` that the message handlers read or write. -/
structure DoorControlClient where
  /-- Field `current_door_state_`, guarded by `state_mutex_`. -/
  current_door_state_ : Str
deriving DecidableEq

namespace DoorControlClient

/-- The constructor: the cached door state starts `"unknown"`. -/
def new : DoorControlClient := { current_door_state_ := "unknown".toList }

/-- `DoorControlClient::getCurrentState`. -/
def getCurrentState (self : DoorControlClient) : Str := self.current_door_state_

/-- The mapping built by `requestSync`: `sync["type"] = "SYNC"`. -/
def syncObject : Object := Object.set [] "type".toList "SYNC".toList

/-- `DoorControlClient::requestSync`: the client, and the lines passed to
`tcp_client_->writeLine`. -/
def requestSync (ord : IterationOrder) (self : DoorControlClient) :
    DoorControlClient × List Str :=
  (self, [SimpleJSON.stringify ord syncObject])

/-- `DoorControlClient::handleMessage`, for a line `message` read from the relay. -/
def handleMessage (self : DoorControlClient) (message : Str) : DoorControlClient :=
  let json := SimpleJSON.parse message
  if (json.find "type".toList).isSome ∧ json.index "type".toList = "sync_response".toList then
    { self with current_door_state_ := json.index "door_state".toList }
  else if (json.find "event".toList).isSome ∧ (json.find "source".toList).isSome then
    if json.index "event".toList = "door_locked".toList then
      { self with current_door_state_ := "locked".toList }
    else if json.index "event".toList = "door_unlocked".toList then
      { self with current_door_state_ := "unlocked".toList }
    else self
  else if (json.find "type".toList).isSome ∧ json.index "type".toList = "ack".toList then
    self
  else self

/-- The client after `handleMessage` has been given each of the received lines in turn. -/
def receive (self : DoorControlClient) : List Str → DoorControlClient
  | [] => self
  | message :: rest => receive (handleMessage self message) rest

/-- The three values the data model gives a door state. -/
def doorStates : List Str := ["locked".toList, "unlocked".toList, "unknown".toList]

/-- The line is handled as a SyncResponse: `json.find("type") != json.end() &&
json["type"] == "sync_response"`. -/
def isSyncResponse (message : Str) : Prop :=
  ((SimpleJSON.parse message).find "type".toList).isSome ∧
    (SimpleJSON.parse message).index "type".toList = "sync_response".toList

instance (message : Str) : Decidable (isSyncResponse message) := by
  unfold isSyncResponse; infer_instance

end DoorControlClient

namespace DoorControlClient

/-- `DoorControlClient::sendCommand`: the client, and the lines passed to
`tcp_client_->writeLine`. -/
def sendCommand (ord : IterationOrder) (self : DoorControlClient) (cmd : Object) :
    DoorControlClient × List Str :=
  (self, [SimpleJSON.stringify ord cmd])

/-- The mapping built by `sendLockCommand`: `cmd["command"] = "lock"; cmd["source"] = "laptop"`. -/
def lockObject : Object :=
  Object.set (Object.set [] "command".toList "lock".toList) "source".toList "laptop".toList

/-- The mapping built by `sendUnlockCommand`. -/
def unlockObject : Object :=
  Object.set (Object.set [] "command".toList "unlock".toList) "source".toList "laptop".toList

/-- `DoorControlClient::sendLockCommand`. -/
def sendLockCommand (ord : IterationOrder) (self : DoorControlClient) :
    DoorControlClient × List Str :=
  sendCommand ord self lockObject

/-- `DoorControlClient::sendUnlockCommand`. -/
def sendUnlockCommand (ord : IterationOrder) (self : DoorControlClient) :
    DoorControlClient × List Str :=
  sendCommand ord self unlockObject

end DoorControlClient

/-! ## The line channels -/

/-- `SerialPort::readLine`, over the bytes `read(fd_, &c, 1)` delivers before it stops returning
1: the line, and the bytes left unread.  Every byte before the first line feed is appended to
the result. -/
def SerialPort.readLine : Str → Str × Str
  | [] => ([], [])
  | c :: rest =>
    if c = '\n' then ([], rest)
    else ((c :: (SerialPort.readLine rest).1), (SerialPort.readLine rest).2)

/-- `TcpServer::readLine`, over the bytes `recv(client_fd_, &c, 1, 0)` delivers before it stops
returning 1: the line, and the bytes left unread. -/
def TcpServer.readLine : Str → Str × Str
  | [] => ([], [])
  | c :: rest =>
    if c = '\n' then ([], rest)
    else ((c :: (TcpServer.readLine rest).1), (TcpServer.readLine rest).2)

/-! ## `DoorServer`, the threaded relay of `SLAL-rasppi.cpp` -/

/-- The member `std::string::find(const std::string&)`: index of the first occurrence of
`needle`, `none` for `npos`. -/
def findStr (needle : Str) : Str → Option Nat
  | [] => if needle = [] then some 0 else none
  | c :: rest =>
    if needle.isPrefixOf (c :: rest) then some 0 else (findStr needle rest).map (· + 1)

/-- The member `std::string::find(const std::string&, pos)`: the first occurrence at or after
`pos`. -/
def findStrFrom (needle haystack : Str) (pos : Nat) : Option Nat :=
  if pos > haystack.length then none
  else (findStr needle (haystack.drop pos)).map (· + pos)

/-- The fields of `DoorServer` that `processMessage` reads or writes. -/
structure DoorServer where
  /-- Field `current_door_status`, guarded by `status_mutex`. -/
  current_door_status : Str
  /-- Field `client_connected`. -/
  client_connected : Bool
  /-- Field `serial_connected`. -/
  serial_connected : Bool
deriving DecidableEq

/-- What the outside world decides during one call of `DoorServer::processMessage`. -/
structure ServerEnv where
  /-- Whether `send` on the client socket succeeds. -/
  clientSendOk : Bool
  /-- The value of `getCurrentTimestamp()`. -/
  now : Str
deriving DecidableEq

/-- The calls `DoorServer::processMessage` makes on its collaborators, in program order. -/
inductive ServerEffect where
  /-- The call `logToDatabase(timestamp, source, event)`. -/
  | logToDatabase (timestamp source event : Str)
  /-- The call `logToTextFile(timestamp, source, event)`. -/
  | logToTextFile (timestamp source event : Str)
  /-- The bytes given to `sp_blocking_write`. -/
  | serialWrite (bytes : Str)
  /-- The bytes given to `send` on the client socket. -/
  | clientSend (bytes : Str)
deriving DecidableEq

namespace DoorServer

/-- The constructor: the status starts `"UNKNOWN"` and nothing is connected. -/
def new : DoorServer :=
  { current_door_status := "UNKNOWN".toList, client_connected := false,
    serial_connected := false }

/-- `DoorServer::parseJSONValue`. -/
def parseJSONValue (json key : Str) : Str :=
  let searchKey := ['"'] ++ key ++ ['"', ':', '"']
  match findStr searchKey json with
  | none => []
  | some found =>
    let pos := found + searchKey.length
    match findStrFrom ['"'] json pos with
    | none => []
    | some endPos => substr json pos (endPos - pos)

/-- `DoorServer::createJSON`, for the value `now` of `getCurrentTimestamp()`. -/
def createJSON (now source event : Str) : Str :=
  "\x7b\"source\":\"".toList ++ source ++ "\",\"event\":\"".toList ++ event ++
    "\",\"timestamp\":\"".toList ++ now ++ "\"\x7d".toList

/-- `DoorServer::logEvent`. -/
def logEvent (self : DoorServer) (timestamp source event : Str) :
    DoorServer × List ServerEffect :=
  if event = "lock".toList ∨ event = "unlock".toList ∨ event = "error".toList then
    let updated : DoorServer :=
      if event = "lock".toList then { self with current_door_status := "LOCKED".toList }
      else if event = "unlock".toList then
        { self with current_door_status := "UNLOCKED".toList }
      else if event = "error".toList then { self with current_door_status := "ERROR".toList }
      else self
    (updated,
      [ServerEffect.logToDatabase timestamp source event,
        ServerEffect.logToTextFile timestamp source event])
  else (self, [])

/-- `DoorServer::sendToSerial`. -/
def sendToSerial (self : DoorServer) (message : Str) : DoorServer × List ServerEffect :=
  if !self.serial_connected then (self, [])
  else (self, [ServerEffect.serialWrite (message ++ ['\n'])])

/-- `DoorServer::sendToClient`: a failed `send` marks the client disconnected. -/
def sendToClient (env : ServerEnv) (self : DoorServer) (message : Str) :
    DoorServer × List ServerEffect :=
  if !self.client_connected then (self, [])
  else if env.clientSendOk then (self, [ServerEffect.clientSend message])
  else ({ self with client_connected := false }, [ServerEffect.clientSend message])

/-- `DoorServer::processMessage`. -/
def processMessage (env : ServerEnv) (self : DoorServer) (jsonMessage sourceDevice : Str) :
    DoorServer × List ServerEffect :=
  let source := parseJSONValue jsonMessage "source".toList
  let event := parseJSONValue jsonMessage "event".toList
  let timestamp := parseJSONValue jsonMessage "timestamp".toList
  if source = [] ∨ event = [] ∨ timestamp = [] then (self, [])
  else
    let logged := logEvent self timestamp source event
    let routed : DoorServer × List ServerEffect :=
      if sourceDevice = "laptop".toList then sendToSerial logged.1 jsonMessage
      else if sourceDevice = "stm32".toList then sendToClient env logged.1 jsonMessage
      else (logged.1, [])
    let answered : DoorServer × List ServerEffect :=
      if event = "status_request".toList then
        let status_response :=
          createJSON env.now "raspberry_pi".toList routed.1.current_door_status
        if sourceDevice = "laptop".toList then sendToClient env routed.1 status_response
        else if sourceDevice = "stm32".toList then sendToSerial routed.1 status_response
        else (routed.1, [])
      else (routed.1, [])
    (answered.1, logged.2 ++ routed.2 ++ answered.2)

end DoorServer
/-! ## Lines and mappings the properties speak about -/

/-- Characters a key must avoid for the codec to keep it: `{ } , : "` CR LF. -/
def keyForbidden : Str := ['{', '}', ',', ':', '"', '\r', '\n']

/-- Characters a value must avoid for the codec to keep it: `{ } , "` CR LF. -/
def valueForbidden : Str := ['{', '}', ',', '"', '\r', '\n']

/-- The delimiter characters `{ } , : "` of the wire format. -/
def delimiters : Str := ['{', '}', ',', ':', '"']

/-- Characters that may pad the parts of a line: space, tab, CR, LF. -/
def padding : Str := [' ', '\t', '\r', '\n']

/-- Segments joined by single commas. -/
def joinComma : List Str → Str
  | [] => []
  | [s] => s
  | s :: t :: rest => s ++ ',' :: joinComma (t :: rest)

/-- A key/value pair together with the padding written around its parts. -/
structure PaddedPair where
  /-- The key, written between double quotes. -/
  key : Str
  /-- The value, written between double quotes. -/
  value : Str
  /-- Padding before the quoted key. -/
  pre : Str
  /-- Padding between the quoted key and the colon. -/
  afterKey : Str
  /-- Padding between the colon and the quoted value. -/
  afterColon : Str
  /-- Padding after the quoted value. -/
  post : Str
deriving DecidableEq

namespace PaddedPair

/-- The segment `pre "key" afterKey : afterColon "value" post`. -/
def segment (p : PaddedPair) : Str :=
  (p.pre ++ '"' :: (p.key ++ '"' :: p.afterKey)) ++
    ':' :: (p.afterColon ++ '"' :: (p.value ++ '"' :: p.post))

/-- The entry a padded pair stands for. -/
def entry (p : PaddedPair) : Str × Str := (p.key, p.value)

/-- The pair `"key":"value"` without padding, as `stringify` writes it. -/
def tight (e : Str × Str) : PaddedPair := ⟨e.1, e.2, [], [], [], []⟩

/-- Key and value avoid the characters the codec cannot carry, and the padding is made of
space, tab, CR and LF. -/
def WellFormed (p : PaddedPair) : Prop :=
  (∀ c ∈ p.key, c ∉ keyForbidden) ∧ (∀ c ∈ p.value, c ∉ valueForbidden) ∧
  (∀ c ∈ p.pre, c ∈ padding) ∧ (∀ c ∈ p.afterKey, c ∈ padding) ∧
  (∀ c ∈ p.afterColon, c ∈ padding) ∧ (∀ c ∈ p.post, c ∈ padding)

instance (p : PaddedPair) : Decidable p.WellFormed := by
  unfold WellFormed; infer_instance

end PaddedPair

/-- The line `{ "k1" : "v1" , ... , "kn" : "vn" }` with the padding of each pair. -/
def paddedLine (ps : List PaddedPair) : Str :=
  '{' :: (joinComma (ps.map PaddedPair.segment) ++ ['}'])

namespace SimpleJSON

/-- A padded pair after the `remove_if` of `parse`: braces, CR and LF are gone from the
padding. -/
def cleanPair (p : PaddedPair) : PaddedPair :=
  { key := p.key, value := p.value,
    pre := p.pre.filter (fun c => !isRemoved c),
    afterKey := p.afterKey.filter (fun c => !isRemoved c),
    afterColon := p.afterColon.filter (fun c => !isRemoved c),
    post := p.post.filter (fun c => !isRemoved c) }

end SimpleJSON

namespace DoorRelayService

/-- The three strings a SyncResponse carries can be sent through the codec. -/
def CleanFields (s : DoorRelayService) : Prop :=
  (∀ c ∈ s.current_door_state_, c ∉ valueForbidden) ∧
  (∀ c ∈ s.last_event_source_, c ∉ valueForbidden) ∧
  (∀ c ∈ s.last_event_timestamp_, c ∉ valueForbidden)

/-- The rows that handling one input appends to `door_events`, each with the peer line being
handled. -/
def stepAppended (ord : IterationOrder) (self : DoorRelayService) :
    Input → List (HistoryEntry × Str)
  | Input.serial message env =>
    ((handleSerialMessage ord env self message).1.db_logger_.door_events.drop
      self.db_logger_.door_events.length).map (fun row => (row, message))
  | _ => []

/-- The rows appended to `door_events` along a sequence of inputs, oldest first, each with
the peer line whose handling appended it. -/
def appended (ord : IterationOrder) (self : DoorRelayService) :
    List Input → List (HistoryEntry × Str)
  | [] => []
  | i :: rest => stepAppended ord self i ++ appended ord (step ord self i).1 rest

/-- No call of `DatabaseLogger::logEvent` fails along the inputs: whenever a peer line passes the
validation of `handleSerialMessage`, the database accepts the row. -/
def NoLogFailure (inputs : List Input) : Prop :=
  ∀ message env, Input.serial message env ∈ inputs →
    isDeviceEvent (SimpleJSON.parse message) = true → env.prepareOk = true ∧ env.stepOk = true

/-- The relay's door state, last source and last timestamp are those of `other`. -/
def SameFields (self other : DoorRelayService) : Prop :=
  self.current_door_state_ = other.current_door_state_ ∧
  self.last_event_source_ = other.last_event_source_ ∧
  self.last_event_timestamp_ = other.last_event_timestamp_

/-- The relay's door state and last source are those of the row, and its last timestamp is the
`timestamp` value of the peer line that produced the row. -/
def AgreesWith (self : DoorRelayService) (produced : HistoryEntry × Str) : Prop :=
  self.current_door_state_ = produced.1.state ∧
  self.last_event_source_ = produced.1.source ∧
  self.last_event_timestamp_ = (SimpleJSON.parse produced.2).index "timestamp".toList

end DoorRelayService

/-! ## Concrete inputs -/

namespace Examples

/-- The example line of the wire protocol: a DeviceEvent reporting `door_locked`. -/
def lockedEvent : Str :=
  "\x7b\"source\":\"stm32\",\"event\":\"door_locked\",\"timestamp\":\"2025-06-08T10:25:00Z\"\x7d".toList

/-- A DeviceEvent reporting `door_unlocked`. -/
def unlockedEvent : Str :=
  "\x7b\"source\":\"stm32\",\"event\":\"door_unlocked\",\"timestamp\":\"2025-06-08T10:25:00Z\"\x7d".toList

/-- A line of the peer whose event is neither `door_locked` nor `door_unlocked`. -/
def heartbeatEvent : Str :=
  "\x7b\"source\":\"stm32\",\"event\":\"heartbeat\",\"timestamp\":\"2025-06-08T10:26:00Z\"\x7d".toList

/-- The SyncRequest of the control client. -/
def syncRequest : Str := "\x7b\"type\":\"SYNC\"\x7d".toList

/-- The lock Command of the control client. -/
def lockCommand : Str := "\x7b\"command\":\"lock\",\"source\":\"laptop\"\x7d".toList

/-- A database that accepts the row; SQLite renders `CURRENT_TIMESTAMP` as
`YYYY-MM-DD HH:MM:SS`. -/
def dbAccepts : LogEnv :=
  { prepareOk := true, stepOk := true, currentTimestamp := "2025-06-08 10:25:01".toList,
    fileOpens := true, localTime := "2025-06-08 12:25:01".toList }

/-- A database whose `sqlite3_step` fails. -/
def dbRefuses : LogEnv := { dbAccepts with stepOk := false }

/-- A relay just constructed over an empty database. -/
def fresh : DoorRelayService := DoorRelayService.new ⟨[], []⟩

/-- A relay just constructed over an empty database, once a client is connected. -/
def freshWithClient : DoorRelayService := { fresh with hasClient := true }

/-- The `door_locked` line with another timestamp. -/
def lockedEventLater : Str :=
  "\x7b\"source\":\"stm32\",\"event\":\"door_locked\",\"timestamp\":\"2025-06-09T07:00:00Z\"\x7d".toList

/-- A mapping whose only key contains a colon; its value is free of delimiters. -/
def colonKey : Object := [("a:b".toList, "c".toList)]

/-- A mapping whose only value contains a carriage return, which is none of `{ } , : "`. -/
def returnValue : Object := [("k".toList, "a\rb".toList)]

/-- The command mapping of the client test `ParseLockCommand`. -/
def lockCommandMap : Object := [("command".toList, "lock".toList), ("source".toList, "laptop".toList)]

/-- The pairs and padding of the parser test `ParseWithWhitespace`. -/
def whitespaceTest : List PaddedPair :=
  [ ⟨"source".toList, "stm32".toList, "\n        ".toList, " ".toList, " ".toList, []⟩,
    ⟨"event".toList, "door_locked".toList, "\n        ".toList, " ".toList, " ".toList, []⟩,
    ⟨"timestamp".toList, "2025-06-08T10:25:00Z".toList, "\n        ".toList, " ".toList,
      " ".toList, "\n    ".toList⟩ ]

/-- The input string of the parser test `ParseWithWhitespace`. -/
def whitespaceTestLine : Str :=
  ("\x7b\n        \"source\" : \"stm32\",\n        \"event\" : \"door_locked\"," ++
    "\n        \"timestamp\" : \"2025-06-08T10:25:00Z\"\n    \x7d").toList

/-- A line of the peer that names another source; `handleSerialMessage` does not accept it. -/
def foreignEvent : Str := "\x7b\"source\":\"laptop\",\"event\":\"door_locked\"\x7d".toList

/-- A session: a client connects, the peer reports `door_unlocked`, the client sends a lock
Command, the peer sends a line that is not accepted, the client asks for the state. -/
def session : List DoorRelayService.Input :=
  [ DoorRelayService.Input.accept,
    DoorRelayService.Input.serial unlockedEvent dbAccepts,
    DoorRelayService.Input.tcp lockCommand,
    DoorRelayService.Input.serial foreignEvent dbRefuses,
    DoorRelayService.Input.tcp syncRequest ]

end Examples


namespace Examples

/-- The line of the scenario with a missing colon: `"source""stm32"`. -/
def missingColon : Str := "\"source\"\"stm32\"".toList

/-- A Command of the control client that is neither lock nor unlock. -/
def openCommand : Str := "\x7b\"command\":\"open\",\"source\":\"laptop\"\x7d".toList

/-- A peer line with source and event but no timestamp. -/
def noTimestampEvent : Str := "\x7b\"source\":\"stm32\",\"event\":\"door_unlocked\"\x7d".toList

/-- A SyncResponse whose door state is none of locked, unlocked, unknown. -/
def ajarResponse : Str := "\x7b\"type\":\"sync_response\",\"door_state\":\"ajar\"\x7d".toList

/-- A SyncResponse reporting the door locked. -/
def lockedResponse : Str :=
  ("\x7b\"type\":\"sync_response\",\"door_state\":\"locked\",\"last_source\":\"stm32\"," ++
    "\"last_timestamp\":\"2025-06-08T10:25:00Z\"\x7d").toList

/-- A relay that handled the `door_unlocked` line. -/
def unlockedRelay : DoorRelayService :=
  DoorRelayService.run IterationOrder.insertion fresh
    [DoorRelayService.Input.serial unlockedEvent dbAccepts]

end Examples

/-! ## Notions for the codec properties -/

/-- A string that neither starts nor ends with a space or tab (the empty string is one). -/
def Trimmed (core : Str) : Prop :=
  (∀ c ∈ core.head?, c ∉ blanks) ∧ (∀ c ∈ core.getLast?, c ∉ blanks)

instance (core : Str) : Decidable (Trimmed core) := by
  unfold Trimmed; infer_instance

/-- An entry as `stringify` writes it: `"key":"value"`. -/
def renderEntry (e : Str × Str) : Str :=
  ['"'] ++ e.1 ++ ['"', ':', '"'] ++ e.2 ++ ['"']

namespace Examples

/-- The segment `"k":"a"b"`, whose value holds a quote inside the outer pair. -/
def innerQuote : Str := "\"k\":\"a\"b\"".toList

/-- A mapping whose value holds a line feed. -/
def lineFeedValue : Object := [("k".toList, "a\nb".toList)]

/-- The acknowledgment mapping of the parser test `StringifyObject`. -/
def ackMap : Object := [("type".toList, "ack".toList), ("status".toList, "ok".toList)]

/-- The bytes the firmware transmits for one event: the message, CR, LF; then more bytes. -/
def firmwareBytes : Str := lockedEvent ++ "\r\n".toList ++ "next".toList

/-- A peer line that is a DeviceEvent for the relay and a SyncResponse for the client. -/
def doubleKindEvent : Str :=
  ("\x7b\"source\":\"stm32\",\"event\":\"door_locked\",\"type\":\"sync_response\"," ++
    "\"door_state\":\"ajar\"\x7d").toList

/-- The lock message the laptop sends to the threaded relay. -/
def laptopLock : Str :=
  "\x7b\"source\":\"laptop\",\"event\":\"lock\",\"timestamp\":\"2025-06-08 10:25:00\"\x7d".toList

/-- A status request of the laptop to the threaded relay. -/
def laptopStatusRequest : Str :=
  ("\x7b\"source\":\"laptop\",\"event\":\"status_request\"," ++
    "\"timestamp\":\"2025-06-08 10:25:00\"\x7d").toList

/-- A mapping with a colon, blanks and an empty value among its values, and an empty key. -/
def oddMap : Object :=
  [("timestamp".toList, " 2025-06-08T10:25:00Z\t".toList), ([], "a b".toList),
    ("note".toList, [])]

end Examples
/-! ## Lemmas on the string members -/

theorem find_append_of_not_mem (c : Char) (pre post : Str) (h : c ∉ pre) :
    find c (pre ++ c :: post) = some pre.length := by
  induction pre with
  | nil => simp [find]
  | cons x xs ih =>
    have hx : x ≠ c := fun e => h (by simp [e])
    have hxs : c ∉ xs := fun e => h (by simp [e])
    simp [find, hx, ih hxs]

theorem find_first_not_of_append (set ws rest : Str) (a : Char) (hws : ∀ c ∈ ws, c ∈ set)
    (ha : a ∉ set) : find_first_not_of set (ws ++ a :: rest) = some ws.length := by
  induction ws with
  | nil => simp [find_first_not_of, ha]
  | cons x xs ih =>
    have hx : x ∈ set := hws x (by simp)
    have hxs : ∀ c ∈ xs, c ∈ set := fun c hc => hws c (by simp [hc])
    simp [find_first_not_of, hx, ih hxs]

theorem find_last_not_of_blank (set ws : Str) (hws : ∀ c ∈ ws, c ∈ set) :
    find_last_not_of set ws = none := by
  induction ws with
  | nil => simp [find_last_not_of]
  | cons x xs ih =>
    have hx : x ∈ set := hws x (by simp)
    have hxs : ∀ c ∈ xs, c ∈ set := fun c hc => hws c (by simp [hc])
    simp [find_last_not_of, hx, ih hxs]

theorem find_last_not_of_append (set pre ws : Str) (b : Char) (hws : ∀ c ∈ ws, c ∈ set)
    (hb : b ∉ set) : find_last_not_of set (pre ++ b :: ws) = some pre.length := by
  induction pre with
  | nil => simp [find_last_not_of, find_last_not_of_blank set ws hws, hb]
  | cons x xs ih => simp [find_last_not_of, ih]

/-- `trim` removes blank padding around a core that starts and ends with a non-blank. -/
theorem trim_padded (ws1 ws2 mid : Str) (a b : Char)
    (h1 : ∀ c ∈ ws1, c ∈ blanks) (h2 : ∀ c ∈ ws2, c ∈ blanks)
    (ha : a ∉ blanks) (hb : b ∉ blanks) :
    trim (ws1 ++ a :: (mid ++ b :: ws2)) = a :: (mid ++ [b]) := by
  have hf := find_first_not_of_append blanks ws1 (mid ++ b :: ws2) a h1 ha
  have hl := find_last_not_of_append blanks (ws1 ++ a :: mid) ws2 b h2 hb
  have e : ws1 ++ a :: (mid ++ b :: ws2) = (ws1 ++ a :: mid) ++ b :: ws2 := by simp
  unfold trim
  rw [hf]
  simp only []
  rw [e, hl, ← e]
  simp only [substr, List.drop_left]
  have : (ws1 ++ a :: mid).length - ws1.length + 1 = (a :: (mid ++ [b])).length := by
    simp
  rw [this]
  have e2 : a :: (mid ++ b :: ws2) = (a :: (mid ++ [b])) ++ ws2 := by simp
  rw [e2, List.take_left]


theorem drop_length_succ_append (l1 l2 : Str) (a : Char) :
    List.drop (l1.length + 1) (l1 ++ a :: l2) = l2 := by
  induction l1 with
  | nil => simp
  | cons x xs ih => simp



theorem getlines_append_delim (d : Char) (seg rest : Str) (h : d ∉ seg) :
    getlines d (seg ++ d :: rest) = seg :: getlines d rest := by
  induction seg with
  | nil => simp [getlines]
  | cons x xs ih =>
    have hx : x ≠ d := fun e => h (by simp [e])
    have hxs : d ∉ xs := fun e => h (by simp [e])
    simp [getlines, hx, ih hxs]

theorem getlines_single (d : Char) (seg : Str) (h : d ∉ seg) (hne : seg ≠ []) :
    getlines d seg = [seg] := by
  induction seg with
  | nil => exact absurd rfl hne
  | cons x xs ih =>
    have hx : x ≠ d := fun e => h (by simp [e])
    have hxs : d ∉ xs := fun e => h (by simp [e])
    cases xs with
    | nil => simp [getlines, hx]
    | cons y ys =>
      have := ih hxs (by simp)
      simp only [getlines, hx, if_false] at this ⊢
      rw [this]

theorem getlines_joinComma (segs : List Str) (h : ∀ s ∈ segs, ',' ∉ s ∧ s ≠ []) :
    getlines ',' (joinComma segs) = segs := by
  induction segs with
  | nil => simp [joinComma, getlines]
  | cons s rest ih =>
    have hs := h s (by simp)
    have hrest : ∀ t ∈ rest, ',' ∉ t ∧ t ≠ [] := fun t ht => h t (by simp [ht])
    cases rest with
    | nil => simpa [joinComma] using getlines_single ',' s hs.1 hs.2
    | cons t ts =>
      simp only [joinComma]
      rw [getlines_append_delim ',' s _ hs.1, ih hrest]

theorem filter_joinComma (p : Char → Bool) (hp : p ',' = true) (segs : List Str) :
    (joinComma segs).filter p = joinComma (segs.map (List.filter p)) := by
  induction segs with
  | nil => simp [joinComma]
  | cons s rest ih =>
    cases rest with
    | nil => simp [joinComma]
    | cons t ts =>
      simp only [joinComma, List.map_cons, List.filter_append, List.filter_cons, hp, if_true] at ih ⊢
      rw [ih]

namespace Object

theorem set_of_not_mem (obj : Object) (key value : Str) (h : key ∉ obj.keys) :
    obj.set key value = obj ++ [(key, value)] := by
  induction obj with
  | nil => simp [set]
  | cons e rest ih =>
    obtain ⟨k, v⟩ := e
    have hk : k ≠ key := fun e => h (by simp [keys, e])
    have hr : key ∉ keys rest := fun e => h (by simp [keys] at e ⊢; exact Or.inr e)
    simp [set, hk, ih hr]

theorem foldl_set_of_nodup (es acc : Object) (h : (acc.keys ++ es.keys).Nodup) :
    es.foldl (fun r e => r.set e.1 e.2) acc = acc ++ es := by
  induction es generalizing acc with
  | nil => simp
  | cons e rest ih =>
    have hk : e.1 ∉ acc.keys := by
      intro hmem
      have := List.nodup_append.mp h
      exact this.2.2 hmem (by simp [keys])
    simp only [List.foldl_cons]
    rw [set_of_not_mem acc e.1 e.2 hk, ih]
    · simp
    · simpa [keys, List.append_assoc] using h

theorem find_of_mem_nodup (obj : Object) (k v : Str) (hn : obj.keys.Nodup) (hm : (k, v) ∈ obj) :
    obj.find k = some v := by
  induction obj with
  | nil => simp at hm
  | cons e rest ih =>
    obtain ⟨k', v'⟩ := e
    simp only [keys, List.map_cons, List.nodup_cons] at hn
    rcases List.mem_cons.mp hm with heq | hmem
    · cases heq; simp [find]
    · have hne : k' ≠ k := by
        intro e; subst e
        exact hn.1 (List.mem_map.mpr ⟨(k', v), hmem, rfl⟩)
      simp only [find, hne, if_false]
      exact ih hn.2 hmem

end Object

namespace SimpleJSON

theorem removeQuotes_quoted (k : Str) (h : '"' ∉ k) :
    removeQuotes ('"' :: (k ++ ['"'])) = k := by
  have : k.filter (fun c => c != '"') = k := by
    rw [List.filter_eq_self]
    intro c hc
    have : c ≠ '"' := fun e => h (e ▸ hc)
    simpa using this
  simp [removeQuotes, List.filter_append, this]

/-- The loop body on a padded segment whose padding is blank. -/
theorem parsePair_segment (result : Object) (p : PaddedPair)
    (hk : ':' ∉ p.key) (hkq : '"' ∉ p.key) (hvq : '"' ∉ p.value)
    (h1 : ∀ c ∈ p.pre, c ∈ blanks) (h2 : ∀ c ∈ p.afterKey, c ∈ blanks)
    (h3 : ∀ c ∈ p.afterColon, c ∈ blanks) (h4 : ∀ c ∈ p.post, c ∈ blanks) :
    parsePair result p.segment = result.set p.key p.value := by
  have hb : ∀ ws : Str, (∀ c ∈ ws, c ∈ blanks) → ':' ∉ ws := by
    intro ws hws hmem
    have := hws _ hmem
    revert this; decide
  have hcolon : ':' ∉ p.pre ++ '"' :: (p.key ++ '"' :: p.afterKey) := by
    simp only [List.mem_append, List.mem_cons, not_or]
    refine ⟨hb _ h1, by decide, hk, by decide, hb _ h2⟩
  have hfind := find_append_of_not_mem ':' _
    (p.afterColon ++ '"' :: (p.value ++ '"' :: p.post)) hcolon
  unfold parsePair PaddedPair.segment
  rw [hfind]
  simp only [substr, substrFrom, List.drop_zero, List.take_left]
  rw [drop_length_succ_append, trim_padded p.pre p.afterKey p.key '"' '"' h1 h2 (by decide)
    (by decide), trim_padded p.afterColon p.post p.value '"' '"' h3 h4 (by decide) (by decide),
    removeQuotes_quoted p.key hkq, removeQuotes_quoted p.value hvq]


theorem filter_padding_blank (ws : Str) (h : ∀ c ∈ ws, c ∈ padding) :
    ∀ c ∈ ws.filter (fun c => !isRemoved c), c ∈ blanks := by
  intro c hc
  rw [List.mem_filter] at hc
  have h1 := h c hc.1
  have h2 := hc.2
  simp only [padding, List.mem_cons, List.mem_singleton, List.not_mem_nil, or_false] at h1
  rcases h1 with e | e | e | e <;> subst e <;> revert h2 <;> decide

theorem filter_keep (s forbidden : Str) (h : ∀ c ∈ s, c ∉ forbidden)
    (hf : ∀ c, isRemoved c = true → c ∈ forbidden) :
    s.filter (fun c => !isRemoved c) = s := by
  rw [List.filter_eq_self]
  intro c hc
  have := h c hc
  cases hr : isRemoved c
  · rfl
  · exact absurd (hf c hr) this

theorem isRemoved_mem_keyForbidden (c : Char) (h : isRemoved c = true) : c ∈ keyForbidden := by
  simp only [isRemoved, Bool.or_eq_true, beq_iff_eq] at h
  rcases h with ((e | e) | e) | e <;> subst e <;> decide

theorem isRemoved_mem_valueForbidden (c : Char) (h : isRemoved c = true) :
    c ∈ valueForbidden := by
  simp only [isRemoved, Bool.or_eq_true, beq_iff_eq] at h
  rcases h with ((e | e) | e) | e <;> subst e <;> decide

theorem filter_segment (p : PaddedPair) (h : p.WellFormed) :
    p.segment.filter (fun c => !isRemoved c) = (cleanPair p).segment := by
  obtain ⟨hk, hv, -⟩ := h
  have ek := filter_keep p.key keyForbidden hk isRemoved_mem_keyForbidden
  have ev := filter_keep p.value valueForbidden hv isRemoved_mem_valueForbidden
  have q : (!isRemoved '"') = true := by decide
  have c : (!isRemoved ':') = true := by decide
  simp only [PaddedPair.segment, cleanPair, List.filter_append, List.filter_cons, q, c, if_true,
    ek, ev]


theorem cleanPair_blank (p : PaddedPair) (h : p.WellFormed) :
    (∀ c ∈ (cleanPair p).pre, c ∈ blanks) ∧ (∀ c ∈ (cleanPair p).afterKey, c ∈ blanks) ∧
    (∀ c ∈ (cleanPair p).afterColon, c ∈ blanks) ∧ (∀ c ∈ (cleanPair p).post, c ∈ blanks) := by
  obtain ⟨-, -, h1, h2, h3, h4⟩ := h
  exact ⟨filter_padding_blank _ h1, filter_padding_blank _ h2, filter_padding_blank _ h3,
    filter_padding_blank _ h4⟩

theorem comma_not_mem_blank (ws : Str) (h : ∀ c ∈ ws, c ∈ blanks) : ',' ∉ ws := by
  intro hmem
  have := h _ hmem
  revert this; decide

theorem segment_cleanPair_no_comma (p : PaddedPair) (h : p.WellFormed) :
    ',' ∉ (cleanPair p).segment ∧ (cleanPair p).segment ≠ [] := by
  obtain ⟨b1, b2, b3, b4⟩ := cleanPair_blank p h
  obtain ⟨hk, hv, -⟩ := h
  have ck : ',' ∉ p.key := fun hm => hk _ hm (by decide)
  have cv : ',' ∉ p.value := fun hm => hv _ hm (by decide)
  constructor
  · simp only [PaddedPair.segment, List.mem_append, List.mem_cons, not_or]
    exact ⟨⟨comma_not_mem_blank _ b1, by decide, ck, by decide, comma_not_mem_blank _ b2⟩,
      by decide, comma_not_mem_blank _ b3, by decide, cv, by decide, comma_not_mem_blank _ b4⟩
  · simp [PaddedPair.segment]

theorem foldl_parsePair_segments (ps : List PaddedPair) (acc : Object)
    (h : ∀ p ∈ ps, p.WellFormed) :
    (ps.map (fun p => (cleanPair p).segment)).foldl parsePair acc =
      (ps.map PaddedPair.entry).foldl (fun r e => r.set e.1 e.2) acc := by
  induction ps generalizing acc with
  | nil => simp
  | cons p rest ih =>
    have hp := h p (by simp)
    obtain ⟨b1, b2, b3, b4⟩ := cleanPair_blank p hp
    have hk : ':' ∉ p.key := fun hm => hp.1 _ hm (by decide)
    have hkq : '"' ∉ p.key := fun hm => hp.1 _ hm (by decide)
    have hvq : '"' ∉ p.value := fun hm => hp.2.1 _ hm (by decide)
    simp only [List.map_cons, List.foldl_cons]
    rw [parsePair_segment acc (cleanPair p) hk hkq hvq b1 b2 b3 b4]
    exact ih _ (fun q hq => h q (by simp [hq]))

/-- Parsing a padded line of well-formed pairs with distinct keys yields exactly the pairs. -/
theorem parse_paddedLine (ps : List PaddedPair) (hwf : ∀ p ∈ ps, p.WellFormed)
    (hnd : (ps.map PaddedPair.key).Nodup) :
    parse (paddedLine ps) = ps.map PaddedPair.entry := by
  have hclean : (paddedLine ps).filter (fun c => !isRemoved c) =
      joinComma (ps.map (fun p => (cleanPair p).segment)) := by
    have o : (!isRemoved '{') = false := by decide
    have c : (!isRemoved '}') = false := by decide
    have m : (!isRemoved ',') = true := by decide
    simp only [paddedLine, List.filter_cons, List.filter_append, o, c, List.filter_nil,
      List.append_nil, Bool.false_eq_true, if_false]
    rw [filter_joinComma _ m, List.map_map]
    congr 1
    apply List.map_congr_left
    intro p hp
    exact filter_segment p (hwf p hp)
  have hsegs : ∀ s ∈ ps.map (fun p => (cleanPair p).segment), ',' ∉ s ∧ s ≠ [] := by
    intro s hs
    obtain ⟨p, hp, rfl⟩ := List.mem_map.mp hs
    exact segment_cleanPair_no_comma p (hwf p hp)
  unfold parse
  simp only []
  rw [hclean, getlines_joinComma _ hsegs, foldl_parsePair_segments ps [] hwf,
    Object.foldl_set_of_nodup]
  · simp
  · simpa [Object.keys, PaddedPair.entry, Function.comp_def] using hnd

end SimpleJSON


/-! ## Lemmas on the codec round trip and on the handlers -/

namespace SimpleJSON

theorem stringifyLoop_false (es : List (Str × Str)) :
    stringifyLoop es false =
      (match es with
        | [] => []
        | _ :: _ => ',' :: joinComma (es.map (fun e => (PaddedPair.tight e).segment))) := by
  induction es with
  | nil => rfl
  | cons e rest ih =>
    obtain ⟨k, v⟩ := e
    cases rest with
    | nil => simp [stringifyLoop, joinComma, PaddedPair.segment, PaddedPair.tight]
    | cons r rs =>
      simp only [stringifyLoop] at ih ⊢
      rw [ih]
      simp [joinComma, PaddedPair.segment, PaddedPair.tight]

theorem stringifyLoop_true (es : List (Str × Str)) :
    stringifyLoop es true = joinComma (es.map (fun e => (PaddedPair.tight e).segment)) := by
  cases es with
  | nil => rfl
  | cons e rest =>
    obtain ⟨k, v⟩ := e
    have h : stringifyLoop ((k, v) :: rest) true =
        (PaddedPair.tight (k, v)).segment ++ stringifyLoop rest false := by
      simp [stringifyLoop, PaddedPair.segment, PaddedPair.tight]
    rw [h, stringifyLoop_false]
    cases rest with
    | nil => simp [joinComma]
    | cons r rs => simp [joinComma]

theorem stringify_eq_paddedLine (ord : IterationOrder) (obj : Object) :
    stringify ord obj = paddedLine ((ord.enum obj).map PaddedPair.tight) := by
  simp [stringify, paddedLine, stringifyLoop_true, List.map_map, Function.comp_def]

/-- Round trip on the domain of the codec: keys without `{ } , : "` CR LF, values without
`{ } , "` CR LF, one entry per key. -/
theorem parse_stringify (ord : IterationOrder) (obj : Object) (hnd : obj.keys.Nodup)
    (hk : ∀ e ∈ obj, ∀ c ∈ e.1, c ∉ keyForbidden)
    (hv : ∀ e ∈ obj, ∀ c ∈ e.2, c ∉ valueForbidden) :
    parse (stringify ord obj) = ord.enum obj := by
  have hmem : ∀ e, e ∈ ord.enum obj → e ∈ obj := fun e he => (ord.perm obj).mem_iff.mp he
  rw [stringify_eq_paddedLine, parse_paddedLine]
  · simp [List.map_map, Function.comp_def, PaddedPair.entry, PaddedPair.tight]
  · intro p hp
    obtain ⟨e, he, rfl⟩ := List.mem_map.mp hp
    refine ⟨hk e (hmem e he), hv e (hmem e he), ?_, ?_, ?_, ?_⟩ <;> simp [PaddedPair.tight]
  · have : ((ord.enum obj).map PaddedPair.tight).map PaddedPair.key = (ord.enum obj).map Prod.fst := by
      simp [List.map_map, Function.comp_def, PaddedPair.tight]
    rw [this]
    exact ((ord.perm obj).map Prod.fst).nodup_iff.mpr hnd

theorem parse_stringify_sameMap (ord : IterationOrder) (obj : Object) (hnd : obj.keys.Nodup)
    (hk : ∀ e ∈ obj, ∀ c ∈ e.1, c ∉ keyForbidden)
    (hv : ∀ e ∈ obj, ∀ c ∈ e.2, c ∉ valueForbidden) :
    Object.sameMap (parse (stringify ord obj)) obj := by
  rw [parse_stringify ord obj hnd hk hv]
  exact ord.perm obj


end SimpleJSON

theorem mem_of_mem_trim (s : Str) (c : Char) (h : c ∈ trim s) : c ∈ s := by
  unfold trim at h
  split at h
  · simp at h
  · split at h <;> exact List.mem_of_mem_drop (List.mem_of_mem_take h)

theorem mem_of_mem_getlines (d : Char) (s seg : Str) (h : seg ∈ getlines d s) :
    ∀ c ∈ seg, c ∈ s ∧ c ≠ d := by
  induction s generalizing seg with
  | nil => simp [getlines] at h
  | cons x xs ih =>
    unfold getlines at h
    split at h
    · rcases List.mem_cons.mp h with e | hm
      · subst e; intro c hc; simp at hc
      · intro c hc
        exact ⟨List.mem_cons_of_mem _ (ih seg hm c hc).1, (ih seg hm c hc).2⟩
    · rename_i hx
      split at h
      · simp only [List.mem_singleton] at h
        subst h
        intro c hc
        simp only [List.mem_singleton] at hc
        subst hc
        exact ⟨by simp, hx⟩
      · rename_i seg0 rest heq
        rcases List.mem_cons.mp h with e | hm
        · subst e
          intro c hc
          rcases List.mem_cons.mp hc with e | hc
          · subst e; exact ⟨by simp, hx⟩
          · have := ih seg0 (by rw [heq]; simp) c hc
            exact ⟨List.mem_cons_of_mem _ this.1, this.2⟩
        · intro c hc
          have := ih seg (by rw [heq]; simp [hm]) c hc
          exact ⟨List.mem_cons_of_mem _ this.1, this.2⟩

namespace Object

theorem mem_set (obj : Object) (key value : Str) (e : Str × Str) (h : e ∈ obj.set key value) :
    e ∈ obj ∨ e = (key, value) := by
  induction obj with
  | nil => simp [set] at h; exact Or.inr h
  | cons a rest ih =>
    obtain ⟨k, v⟩ := a
    unfold set at h
    split at h
    · rename_i hk
      rcases List.mem_cons.mp h with e1 | hm
      · subst hk; exact Or.inr e1
      · exact Or.inl (List.mem_cons_of_mem _ hm)
    · rcases List.mem_cons.mp h with e1 | hm
      · exact Or.inl (by simp [e1])
      · rcases ih hm with h1 | h1
        · exact Or.inl (List.mem_cons_of_mem _ h1)
        · exact Or.inr h1

theorem mem_of_find (obj : Object) (k v : Str) (h : obj.find k = some v) : (k, v) ∈ obj := by
  induction obj with
  | nil => simp [find] at h
  | cons a rest ih =>
    obtain ⟨k0, v0⟩ := a
    unfold find at h
    split at h
    · rename_i hk
      simp only [Option.some.injEq] at h
      subst hk; subst h; simp
    · exact List.mem_cons_of_mem _ (ih h)

end Object

namespace SimpleJSON

/-- Every value of a decoded mapping is free of `{ } , "` CR LF. -/
theorem parse_value_clean (json : Str) :
    ∀ e ∈ parse json, ∀ c ∈ e.2, c ∉ valueForbidden := by
  unfold parse
  simp only []
  generalize hcl : json.filter (fun c => !isRemoved c) = cleaned
  have hclean : ∀ c ∈ cleaned, isRemoved c = false := by
    intro c hc
    rw [← hcl, List.mem_filter] at hc
    simpa using hc.2
  have key : ∀ (segs : List Str) (acc : Object),
      (∀ seg ∈ segs, ∀ c ∈ seg, c ∈ cleaned ∧ c ≠ ',') →
      (∀ e ∈ acc, ∀ c ∈ e.2, c ∉ valueForbidden) →
      ∀ e ∈ segs.foldl parsePair acc, ∀ c ∈ e.2, c ∉ valueForbidden := by
    intro segs
    induction segs with
    | nil => intro acc _ hacc; simpa using hacc
    | cons seg rest ih =>
      intro acc hsegs hacc
      simp only [List.foldl_cons]
      apply ih
      · intro s hs; exact hsegs s (by simp [hs])
      · intro e he c hc
        unfold parsePair at he
        split at he
        · exact hacc e he c hc
        · rcases Object.mem_set _ _ _ _ he with h1 | h1
          · exact hacc e h1 c hc
          · subst h1
            simp only [removeQuotes, List.mem_filter, bne_iff_ne, ne_eq] at hc
            have hseg : c ∈ seg := List.mem_of_mem_drop (mem_of_mem_trim _ _ hc.1)
            have h2 := hsegs seg (by simp) c hseg
            have h3 := hclean c h2.1
            simp only [isRemoved, Bool.or_eq_false_iff, beq_eq_false_iff_ne, ne_eq] at h3
            simp only [valueForbidden, List.mem_cons, List.mem_singleton, List.not_mem_nil,
              or_false, not_or]
            exact ⟨h3.1.1.1, h3.1.1.2, h2.2, hc.2, h3.2, h3.1.2⟩
  exact key _ [] (fun seg hseg => mem_of_mem_getlines ',' cleaned seg hseg) (by simp)

theorem parse_index_clean (json key : Str) :
    ∀ c ∈ (parse json).index key, c ∉ valueForbidden := by
  intro c hc
  unfold Object.index at hc
  cases hf : (parse json).find key with
  | none => simp [hf] at hc
  | some v =>
    simp only [hf, Option.getD_some] at hc
    exact parse_value_clean json (key, v) (Object.mem_of_find _ _ _ hf) c hc


theorem parse_nil : parse [] = [] := rfl

end SimpleJSON

namespace DoorRelayService

theorem ne_nil_of_find (message key v : Str) (h : (SimpleJSON.parse message).find key = some v) :
    message ≠ [] := by
  intro e
  subst e
  simp [SimpleJSON.parse_nil, Object.find] at h

theorem index_of_find (obj : Object) (key v : Str) (h : obj.find key = some v) :
    obj.index key = v := by
  simp [Object.index, h]

theorem isDeviceEvent_of_find (json : Object) (ev : Str)
    (hsrc : json.find "source".toList = some "stm32".toList)
    (hev : json.find "event".toList = some ev) : isDeviceEvent json = true := by
  simp only [isDeviceEvent, Object.index, hsrc, hev, Option.isSome_some, Option.getD_some,
    decide_True, Bool.and_self]

/-- The door state the `if`/`else if` of `handleSerialMessage` computes for event `ev`. -/
theorem handleSerialMessage_state (ord : IterationOrder) (env : LogEnv)
    (self : DoorRelayService) (message ev : Str)
    (hsrc : (SimpleJSON.parse message).find "source".toList = some "stm32".toList)
    (hev : (SimpleJSON.parse message).find "event".toList = some ev) :
    (handleSerialMessage ord env self message).1.current_door_state_ =
      (if ev = "door_locked".toList then "locked".toList
       else if ev = "door_unlocked".toList then "unlocked".toList
       else self.current_door_state_) ∧
    (handleSerialMessage ord env self message).1.last_event_source_ = "stm32".toList ∧
    (handleSerialMessage ord env self message).1.last_event_timestamp_ =
      (SimpleJSON.parse message).index "timestamp".toList ∧
    (handleSerialMessage ord env self message).1.hasClient = self.hasClient := by
  have hne := ne_nil_of_find message _ _ hsrc
  have hdev := isDeviceEvent_of_find _ ev hsrc hev
  have hidx := index_of_find _ _ _ hev
  have hsidx := index_of_find _ _ _ hsrc
  unfold handleSerialMessage
  simp only [hne, if_false, hdev, if_true, hidx, hsidx]
  split <;> (split_ifs <;> simp)


theorem handleSerialMessage_ok (ord : IterationOrder) (env : LogEnv)
    (self : DoorRelayService) (message ev : Str)
    (hsrc : (SimpleJSON.parse message).find "source".toList = some "stm32".toList)
    (hev : (SimpleJSON.parse message).find "event".toList = some ev)
    (hp : env.prepareOk = true) (hs : env.stepOk = true) :
    (handleSerialMessage ord env self message).2 =
      [Effect.logEvent (handleSerialMessage ord env self message).1.current_door_state_
          "stm32".toList,
        Effect.serialWrite (SimpleJSON.stringify ord ack)] ++
        (if self.hasClient then [Effect.tcpWrite message] else []) ∧
    (handleSerialMessage ord env self message).1.db_logger_.door_events =
      self.db_logger_.door_events ++
        [⟨(handleSerialMessage ord env self message).1.current_door_state_, "stm32".toList,
          env.currentTimestamp⟩] := by
  have hne := ne_nil_of_find message _ _ hsrc
  have hdev := isDeviceEvent_of_find _ ev hsrc hev
  have hidx := index_of_find _ _ _ hev
  have hsidx := index_of_find _ _ _ hsrc
  unfold handleSerialMessage
  simp only [hne, if_false, hdev, if_true, hidx, hsidx, DatabaseLogger.logEvent, hp, hs,
    Bool.not_true, Bool.false_eq_true, DatabaseLogger.logToFile]
  split_ifs <;> simp

theorem handleSerialMessage_rejected (ord : IterationOrder) (env : LogEnv)
    (self : DoorRelayService) (message : Str)
    (h : isDeviceEvent (SimpleJSON.parse message) = false) :
    handleSerialMessage ord env self message = (self, []) := by
  unfold handleSerialMessage
  simp only [h, Bool.false_eq_true, if_false, ite_self]

theorem handleTcpMessage_state (ord : IterationOrder) (self : DoorRelayService)
    (message : Str) : (handleTcpMessage ord self message).1 = self := by
  unfold handleTcpMessage
  dsimp only
  split_ifs <;> rfl

theorem handleTcpMessage_logCalls (ord : IterationOrder) (self : DoorRelayService)
    (message : Str) : logCalls (handleTcpMessage ord self message).2 = [] := by
  unfold handleTcpMessage
  dsimp only
  split_ifs <;> rfl

theorem ack_eq : ack = [("type".toList, "ack".toList), ("status".toList, "ok".toList)] := by
  decide

theorem parse_stringify_ack (ord : IterationOrder) :
    Object.sameMap (SimpleJSON.parse (SimpleJSON.stringify ord ack))
      [("type".toList, "ack".toList), ("status".toList, "ok".toList)] := by
  have h := SimpleJSON.parse_stringify_sameMap ord ack (by decide) (by decide) (by decide)
  rw [ack_eq] at h ⊢
  exact h

theorem syncResponse_eq (self : DoorRelayService) :
    syncResponse self =
      [("type".toList, "sync_response".toList),
        ("door_state".toList, self.current_door_state_),
        ("last_source".toList, self.last_event_source_),
        ("last_timestamp".toList, self.last_event_timestamp_)] := by
  have h1 : "type".toList ≠ "door_state".toList := by decide
  have h2 : "type".toList ≠ "last_source".toList := by decide
  have h3 : "type".toList ≠ "last_timestamp".toList := by decide
  have h4 : "door_state".toList ≠ "last_source".toList := by decide
  have h5 : "door_state".toList ≠ "last_timestamp".toList := by decide
  have h6 : "last_source".toList ≠ "last_timestamp".toList := by decide
  simp only [syncResponse, Object.set, h1, h2, h3, h4, h5, h6, if_false]

theorem parse_stringify_syncResponse (ord : IterationOrder) (self : DoorRelayService)
    (h : CleanFields self) :
    Object.sameMap (SimpleJSON.parse (SimpleJSON.stringify ord (syncResponse self)))
      [("type".toList, "sync_response".toList),
        ("door_state".toList, self.current_door_state_),
        ("last_source".toList, self.last_event_source_),
        ("last_timestamp".toList, self.last_event_timestamp_)] := by
  rw [← syncResponse_eq]
  apply SimpleJSON.parse_stringify_sameMap
  · rw [syncResponse_eq]
    simp only [Object.keys, List.map]
    decide
  · rw [syncResponse_eq]
    intro e he
    simp only [List.mem_cons, List.mem_singleton, List.not_mem_nil, or_false] at he
    rcases he with e1 | e1 | e1 | e1 <;> subst e1 <;> dsimp only <;> decide
  · rw [syncResponse_eq]
    intro e he
    simp only [List.mem_cons, List.mem_singleton, List.not_mem_nil, or_false] at he
    rcases he with e1 | e1 | e1 | e1 <;> subst e1
    · decide
    · exact h.1
    · exact h.2.1
    · exact h.2.2

end DoorRelayService


namespace DoorRelayService

theorem handleSerialMessage_cleanFields (ord : IterationOrder) (env : LogEnv)
    (self : DoorRelayService) (message : Str) (h : CleanFields self) :
    CleanFields (handleSerialMessage ord env self message).1 := by
  have hs := SimpleJSON.parse_index_clean message "source".toList
  have ht := SimpleJSON.parse_index_clean message "timestamp".toList
  have hl : ∀ c ∈ "locked".toList, c ∉ valueForbidden := by decide
  have hu : ∀ c ∈ "unlocked".toList, c ∉ valueForbidden := by decide
  unfold handleSerialMessage
  dsimp only
  split_ifs <;> first
    | exact h
    | (split <;> exact ⟨hl, hs, ht⟩)
    | (split <;> exact ⟨hu, hs, ht⟩)
    | (split <;> exact ⟨h.1, hs, ht⟩)

theorem step_cleanFields (ord : IterationOrder) (self : DoorRelayService) (i : Input)
    (h : CleanFields self) : CleanFields (step ord self i).1 := by
  cases i with
  | serial message env => exact handleSerialMessage_cleanFields ord env self message h
  | tcp message =>
    show CleanFields (handleTcpMessage ord self message).1
    rw [handleTcpMessage_state]; exact h
  | accept => exact h
  | closeClient => exact h

theorem run_cleanFields (ord : IterationOrder) (inputs : List Input) (self : DoorRelayService)
    (h : CleanFields self) : CleanFields (run ord self inputs) := by
  induction inputs generalizing self with
  | nil => exact h
  | cons i rest ih => exact ih _ (step_cleanFields ord self i h)

theorem new_cleanFields (db : DatabaseLogger) : CleanFields (new db) :=
  ⟨by simp only [new]; decide, by simp [new], by simp [new]⟩

theorem reachable_cleanFields (ord : IterationOrder) (s : DoorRelayService)
    (h : Reachable ord s) : CleanFields s := by
  obtain ⟨db, inputs, rfl⟩ := h
  exact run_cleanFields ord inputs _ (new_cleanFields db)

theorem isSyncRequest_of_find (json : Object)
    (h : json.find "type".toList = some "SYNC".toList) : isSyncRequest json = true := by
  simp only [isSyncRequest, Object.index, h, Option.isSome_some, Option.getD_some,
    decide_True, Bool.and_self]

theorem handleTcpMessage_sync (ord : IterationOrder) (self : DoorRelayService)
    (message : Str)
    (h : (SimpleJSON.parse message).find "type".toList = some "SYNC".toList) :
    (handleTcpMessage ord self message).2 =
      [Effect.tcpWrite (SimpleJSON.stringify ord (syncResponse self))] := by
  have hne := ne_nil_of_find message _ _ h
  unfold handleTcpMessage
  simp only [hne, if_false, isSyncRequest_of_find _ h, if_true]

theorem isSyncRequest_false (json : Object)
    (h : json.find "type".toList ≠ some "SYNC".toList) : isSyncRequest json = false := by
  unfold isSyncRequest Object.index
  cases hf : json.find "type".toList with
  | none => rfl
  | some v =>
    have : v ≠ "SYNC".toList := fun e => h (by rw [hf, e])
    simp only [Option.isSome_some, Option.getD_some, Bool.true_and, decide_eq_false_iff_not]
    exact this

theorem handleTcpMessage_command (ord : IterationOrder) (self : DoorRelayService)
    (message command : Str)
    (hns : (SimpleJSON.parse message).find "type".toList ≠ some "SYNC".toList)
    (hc : (SimpleJSON.parse message).find "command".toList = some command)
    (hcmd : command = "lock".toList ∨ command = "unlock".toList) :
    (handleTcpMessage ord self message).2 =
      [Effect.serialWrite message, Effect.tcpWrite (SimpleJSON.stringify ord ack)] := by
  have hne := ne_nil_of_find message _ _ hc
  have hidx := index_of_find _ _ _ hc
  unfold handleTcpMessage
  simp only [hne, if_false, isSyncRequest_false _ hns, Bool.false_eq_true, hc,
    Option.isSome_some, if_true, hidx, hcmd]

end DoorRelayService


namespace DoorRelayService

theorem find_of_isDeviceEvent (json : Object) (h : isDeviceEvent json = true) :
    json.find "source".toList = some "stm32".toList ∧
    ∃ ev, json.find "event".toList = some ev := by
  unfold isDeviceEvent Object.index at h
  simp only [Bool.and_eq_true, decide_eq_true_eq] at h
  obtain ⟨⟨h1, h2⟩, h3⟩ := h
  constructor
  · cases hf : json.find "source".toList with
    | none => rw [hf] at h1; cases h1
    | some v => rw [hf] at h3; simp only [Option.getD_some] at h3; rw [h3]
  · cases hf : json.find "event".toList with
    | none => rw [hf] at h2; cases h2
    | some v => exact ⟨v, rfl⟩

/-- What one input does to the table and to the three strings, when the database accepts
every row it is given. -/
theorem step_appended_cases (ord : IterationOrder) (self : DoorRelayService) (i : Input)
    (hok : NoLogFailure [i]) :
    (stepAppended ord self i = [] ∧
      (step ord self i).1.db_logger_.door_events = self.db_logger_.door_events ∧
      SameFields (step ord self i).1 self) ∨
    (∃ produced, stepAppended ord self i = [produced] ∧
      (step ord self i).1.db_logger_.door_events = self.db_logger_.door_events ++ [produced.1] ∧
      AgreesWith (step ord self i).1 produced) := by
  cases i with
  | serial message env =>
    cases hdev : isDeviceEvent (SimpleJSON.parse message) with
    | false =>
      left
      have h := handleSerialMessage_rejected ord env self message hdev
      simp only [stepAppended, step, h, List.drop_length, List.map_nil, SameFields, and_self]
    | true =>
      right
      obtain ⟨hp, hs⟩ := hok message env (by simp) hdev
      obtain ⟨hsrc, ev, hev⟩ := find_of_isDeviceEvent _ hdev
      obtain ⟨-, hrows⟩ := handleSerialMessage_ok ord env self message ev hsrc hev hp hs
      obtain ⟨-, hsource, hts, -⟩ := handleSerialMessage_state ord env self message ev hsrc hev
      refine ⟨(⟨(handleSerialMessage ord env self message).1.current_door_state_,
        "stm32".toList, env.currentTimestamp⟩, message), ?_, hrows, rfl, hsource, hts⟩
      simp only [stepAppended]
      rw [hrows, List.drop_left]
      rfl
  | tcp message =>
    left
    simp only [stepAppended, step, handleTcpMessage_state, SameFields, and_self]
  | accept => left; simp only [stepAppended, step, SameFields, and_self]
  | closeClient => left; simp only [stepAppended, step, SameFields, and_self]

theorem noLogFailure_cons (i : Input) (rest : List Input) (h : NoLogFailure (i :: rest)) :
    NoLogFailure [i] ∧ NoLogFailure rest := by
  constructor
  · intro m env hm
    exact h m env (by simp only [List.mem_singleton] at hm; simp [hm])
  · intro m env hm
    exact h m env (List.mem_cons_of_mem _ hm)

/-- Along inputs whose rows the database accepts, the table grows by exactly the appended rows,
and the three strings follow the last appended row. -/
theorem run_appended (ord : IterationOrder) (inputs : List Input) (self : DoorRelayService)
    (hok : NoLogFailure inputs) :
    (run ord self inputs).db_logger_.door_events =
      self.db_logger_.door_events ++ (appended ord self inputs).map Prod.fst ∧
    (appended ord self inputs = [] → SameFields (run ord self inputs) self) ∧
    (∀ produced, (appended ord self inputs).getLast? = some produced →
      AgreesWith (run ord self inputs) produced) := by
  induction inputs generalizing self with
  | nil =>
    refine ⟨by simp [run, appended], fun _ => ⟨rfl, rfl, rfl⟩, ?_⟩
    intro produced h
    simp [appended] at h
  | cons i rest ih =>
    obtain ⟨hi, hrest⟩ := noLogFailure_cons i rest hok
    obtain ⟨ihrows, ihempty, ihlast⟩ := ih (step ord self i).1 hrest
    simp only [run, appended]
    rcases step_appended_cases ord self i hi with ⟨hnone, hrows, hsame⟩ | ⟨p, hone, hrows, hagree⟩
    · rw [hnone, List.nil_append]
      refine ⟨by rw [ihrows, hrows], ?_, ihlast⟩
      intro hemp
      obtain ⟨a, b, c⟩ := ihempty hemp
      exact ⟨a.trans hsame.1, b.trans hsame.2.1, c.trans hsame.2.2⟩
    · rw [hone]
      refine ⟨by rw [ihrows, hrows]; simp, by simp, ?_⟩
      intro produced hlast
      cases hA : appended ord (step ord self i).1 rest with
      | nil =>
        rw [hA] at hlast
        simp only [List.append_nil, List.getLast?_singleton, Option.some.injEq] at hlast
        subst hlast
        obtain ⟨a, b, c⟩ := ihempty hA
        exact ⟨a.trans hagree.1, b.trans hagree.2.1, c.trans hagree.2.2⟩
      | cons x xs =>
        apply ihlast
        rw [hA] at hlast ⊢
        rw [List.getLast?_append] at hlast
        simpa [List.getLast?_cons_cons] using hlast

end DoorRelayService


theorem find_eq_none_of_not_mem (c : Char) (s : Str) (h : c ∉ s) : find c s = none := by
  induction s with
  | nil => rfl
  | cons x xs ih =>
    have hx : x ≠ c := fun e => h (by simp [e])
    have hxs : c ∉ xs := fun e => h (by simp [e])
    simp [find, hx, ih hxs]

namespace SimpleJSON

/-- A pair of braces around padding only decodes to the empty mapping. -/
theorem parse_padded_braces (pad : Str) (h : ∀ c ∈ pad, c ∈ padding) :
    parse ('{' :: (pad ++ ['}'])) = [] := by
  have hb := filter_padding_blank pad h
  have o : (!isRemoved '{') = false := by decide
  have c : (!isRemoved '}') = false := by decide
  unfold parse
  simp only [List.filter_cons, List.filter_append, o, c, List.filter_nil, List.append_nil,
    Bool.false_eq_true, if_false]
  generalize pad.filter (fun c => !isRemoved c) = ws at hb
  cases ws with
  | nil => rfl
  | cons x xs =>
    have hcolon : ':' ∉ x :: xs := by
      intro hm
      have := hb _ hm
      revert this; decide
    rw [getlines_single ',' (x :: xs) (comma_not_mem_blank _ hb) (by simp)]
    simp only [List.foldl_cons, List.foldl_nil, parsePair, find_eq_none_of_not_mem _ _ hcolon]

end SimpleJSON

namespace DoorRelayService

theorem isDeviceEvent_false (json : Object)
    (h : json.find "source".toList = none ∨ json.find "event".toList = none ∨
      json.find "source".toList ≠ some "stm32".toList) : isDeviceEvent json = false := by
  unfold isDeviceEvent Object.index
  rcases h with h | h | h
  · rw [h]; rfl
  · rw [h]; simp only [Option.isSome_none, Bool.and_false, Bool.false_and]
  · cases hf : json.find "source".toList with
    | none => rfl
    | some v =>
      have : v ≠ "stm32".toList := fun e => h (by rw [hf, e])
      simp only [Option.getD_some, this, decide_False, Bool.and_false]

/-- When `logEvent` throws, the handler has already stored the new strings; it prints the
exception and writes nothing. -/
theorem handleSerialMessage_failed (ord : IterationOrder) (env : LogEnv)
    (self : DoorRelayService) (message ev : Str)
    (hsrc : (SimpleJSON.parse message).find "source".toList = some "stm32".toList)
    (hev : (SimpleJSON.parse message).find "event".toList = some ev)
    (hfail : env.prepareOk = false ∨ env.stepOk = false) :
    (handleSerialMessage ord env self message).2 =
      [Effect.logEvent (handleSerialMessage ord env self message).1.current_door_state_
          "stm32".toList,
        Effect.cerr ("Error handling serial message: " ++
          (if env.prepareOk = false then "Failed to prepare statement"
           else "Failed to insert event"))] ∧
    (handleSerialMessage ord env self message).1.db_logger_ = self.db_logger_ := by
  have hne := ne_nil_of_find message _ _ hsrc
  have hdev := isDeviceEvent_of_find _ ev hsrc hev
  have hidx := index_of_find _ _ _ hev
  have hsidx := index_of_find _ _ _ hsrc
  unfold handleSerialMessage
  simp only [hne, if_false, hdev, if_true, hidx, hsidx, DatabaseLogger.logEvent]
  rcases hfail with h | h
  · simp only [h, Bool.not_false, if_true]
    split_ifs <;> simp
  · cases hp : env.prepareOk
    · simp only [Bool.not_false, if_true]
      split_ifs <;> simp
    · simp only [h, Bool.not_true, Bool.false_eq_true, if_false, Bool.not_false, if_true,
        Bool.true_eq_false]
      split_ifs <;> simp

theorem handleTcpMessage_ignored (ord : IterationOrder) (self : DoorRelayService)
    (message : Str)
    (hns : (SimpleJSON.parse message).find "type".toList ≠ some "SYNC".toList)
    (hl : (SimpleJSON.parse message).find "command".toList ≠ some "lock".toList)
    (hu : (SimpleJSON.parse message).find "command".toList ≠ some "unlock".toList) :
    handleTcpMessage ord self message = (self, []) := by
  unfold handleTcpMessage
  simp only [isSyncRequest_false _ hns, Bool.false_eq_true, if_false]
  cases hf : (SimpleJSON.parse message).find "command".toList with
  | none => simp only [Option.isSome_none, Bool.false_eq_true, if_false, ite_self]
  | some v =>
    have h1 : v ≠ "lock".toList := fun e => hl (by rw [hf, e])
    have h2 : v ≠ "unlock".toList := fun e => hu (by rw [hf, e])
    simp only [Option.isSome_some, if_true, Object.index, hf, Option.getD_some, h1, h2,
      or_self, if_false, ite_self]

end DoorRelayService


theorem find_lt_length (c : Char) (s : Str) (i : Nat) (h : find c s = some i) :
    i < s.length := by
  induction s generalizing i with
  | nil => simp [find] at h
  | cons x xs ih =>
    unfold find at h
    split at h
    · simp only [Option.some.injEq] at h; subst h; simp
    · cases hf : find c xs with
      | none => rw [hf] at h; simp at h
      | some j =>
        rw [hf] at h
        simp only [Option.map_some', Option.some.injEq] at h
        subst h
        simpa using ih j hf

theorem find_first_not_of_lt_length (set s : Str) (i : Nat)
    (h : find_first_not_of set s = some i) : i < s.length := by
  induction s generalizing i with
  | nil => simp [find_first_not_of] at h
  | cons x xs ih =>
    unfold find_first_not_of at h
    split at h
    · cases hf : find_first_not_of set xs with
      | none => rw [hf] at h; simp at h
      | some j =>
        rw [hf] at h
        simp only [Option.map_some', Option.some.injEq] at h
        subst h
        simpa using ih j hf
    · simp only [Option.some.injEq] at h; subst h; simp

namespace SimpleJSON

theorem trimChecked_eq (s : Str) : trimChecked s = Except.ok (trim s) := by
  unfold trimChecked trim
  cases hf : find_first_not_of blanks s with
  | none => rfl
  | some first =>
    have hlt := find_first_not_of_lt_length blanks s first hf
    have hle : ¬ first > s.length := by omega
    cases find_last_not_of blanks s <;> simp only [substrChecked, hle, if_false]

theorem parsePairChecked_eq (result : Object) (pair : Str) :
    parsePairChecked result pair = Except.ok (parsePair result pair) := by
  unfold parsePairChecked parsePair
  cases hf : find ':' pair with
  | none => rfl
  | some colonPos =>
    have hlt := find_lt_length ':' pair colonPos hf
    have h0 : ¬ 0 > pair.length := by omega
    have h1 : ¬ colonPos + 1 > pair.length := by omega
    simp only [substrChecked, substrFromChecked, h0, h1, if_false, trimChecked_eq]

theorem parseLoopChecked_eq (segs : List Str) (result : Object) :
    parseLoopChecked segs result = Except.ok (segs.foldl parsePair result) := by
  induction segs generalizing result with
  | nil => rfl
  | cons pair rest ih =>
    simp only [parseLoopChecked, parsePairChecked_eq, List.foldl_cons]
    exact ih _

/-- No `substr` of `parse` is out of range: the call returns the mapping of `parse`. -/
theorem parseChecked_eq (json : Str) : parseChecked json = Except.ok (parse json) := by
  unfold parseChecked parse
  exact parseLoopChecked_eq _ _

theorem foldl_parsePair_no_colon (segs : List Str) (acc : Object)
    (h : ∀ seg ∈ segs, ':' ∉ seg) : segs.foldl parsePair acc = acc := by
  induction segs generalizing acc with
  | nil => rfl
  | cons seg rest ih =>
    have hseg : parsePair acc seg = acc := by
      unfold parsePair
      rw [find_eq_none_of_not_mem ':' seg (h seg (by simp))]
    simp only [List.foldl_cons, hseg]
    exact ih acc (fun s hs => h s (by simp [hs]))

/-- A line without colon decodes to the empty mapping. -/
theorem parse_of_no_colon (json : Str) (h : ':' ∉ json) : parse json = [] := by
  unfold parse
  apply foldl_parsePair_no_colon
  intro seg hseg hmem
  have := (mem_of_mem_getlines ',' _ seg hseg ':' hmem).1
  exact h (List.mem_filter.mp this).1

end SimpleJSON

namespace Object

theorem find_of_perm (a b : Object) (k v : Str) (hp : List.Perm a b) (hn : b.keys.Nodup)
    (hm : (k, v) ∈ b) : a.find k = some v := by
  apply find_of_mem_nodup
  · exact ((hp.map Prod.fst).nodup_iff).mpr hn
  · exact hp.mem_iff.mpr hm

end Object


namespace DoorControlClient

theorem syncObject_eq : syncObject = [("type".toList, "SYNC".toList)] := rfl

theorem parse_requestSync (ord : IterationOrder) :
    (SimpleJSON.parse (SimpleJSON.stringify ord syncObject)).find "type".toList =
      some "SYNC".toList := by
  have h := SimpleJSON.parse_stringify_sameMap ord syncObject (by decide) (by decide) (by decide)
  exact Object.find_of_perm _ _ _ _ h (by decide) (by decide)

theorem handleMessage_syncResponse (self : DoorControlClient) (message : Str)
    (h : (SimpleJSON.parse message).find "type".toList = some "sync_response".toList) :
    (handleMessage self message).current_door_state_ =
      (SimpleJSON.parse message).index "door_state".toList := by
  unfold handleMessage
  simp only [h, Object.index, Option.isSome_some, Option.getD_some, and_self, if_true]

theorem handleMessage_doorStates (self : DoorControlClient) (message : Str)
    (hs : self.current_door_state_ ∈ doorStates)
    (hm : isSyncResponse message →
      (SimpleJSON.parse message).index "door_state".toList ∈ doorStates) :
    (handleMessage self message).current_door_state_ ∈ doorStates := by
  unfold handleMessage
  dsimp only
  split_ifs with h1 h2 h3 h4 h5
  · exact hm h1
  · decide
  · decide
  · exact hs
  · exact hs
  · exact hs

end DoorControlClient



theorem find_first_not_of_blank (set ws : Str) (hws : ∀ c ∈ ws, c ∈ set) :
    find_first_not_of set ws = none := by
  induction ws with
  | nil => rfl
  | cons x xs ih =>
    have hx : x ∈ set := hws x (by simp)
    have hxs : ∀ c ∈ xs, c ∈ set := fun c hc => hws c (by simp [hc])
    simp [find_first_not_of, hx, ih hxs]

/-- `trim` removes the blanks around a string that neither starts nor ends with one. -/
theorem trim_core (ws1 core ws2 : Str) (h1 : ∀ c ∈ ws1, c ∈ blanks)
    (h2 : ∀ c ∈ ws2, c ∈ blanks) (hc : Trimmed core) : trim (ws1 ++ core ++ ws2) = core := by
  cases core with
  | nil =>
    have hall : ∀ c ∈ ws1 ++ [] ++ ws2, c ∈ blanks := by
      intro c hmem
      simp only [List.append_nil, List.mem_append] at hmem
      exact hmem.elim (h1 c) (h2 c)
    unfold trim
    rw [find_first_not_of_blank blanks _ hall]
  | cons a rest =>
    have ha : a ∉ blanks := hc.1 a (by simp)
    rcases List.eq_nil_or_concat rest with hnil | ⟨mid, b, hrest⟩
    · subst hnil
      have hf := find_first_not_of_append blanks ws1 ws2 a h1 ha
      have hl := find_last_not_of_append blanks ws1 ws2 a h2 ha
      have e : ws1 ++ [a] ++ ws2 = ws1 ++ a :: ws2 := by simp
      unfold trim
      rw [e, hf]
      simp only []
      rw [hl]
      simp [substr]
    · rw [List.concat_eq_append] at hrest
      subst hrest
      have hlast : (a :: (mid ++ [b])).getLast? = some b := by
        rw [← List.cons_append, List.getLast?_append]
        rfl
      have hb : b ∉ blanks := hc.2 b hlast
      have e : ws1 ++ a :: (mid ++ [b]) ++ ws2 = ws1 ++ a :: (mid ++ b :: ws2) := by simp
      rw [e]
      exact trim_padded ws1 ws2 mid a b h1 h2 ha hb

namespace SimpleJSON

theorem quote_not_mem_removeQuotes (s : Str) : '"' ∉ removeQuotes s := by
  intro h
  simp [removeQuotes, List.mem_filter] at h

theorem removeQuotes_of_not_mem (s : Str) (h : '"' ∉ s) : removeQuotes s = s := by
  unfold removeQuotes
  rw [List.filter_eq_self]
  intro c hc
  have : c ≠ '"' := fun e => h (e ▸ hc)
  simpa using this

/-- The loop body on a segment split into blanks, key, blanks, colon, blanks, value, blanks. -/
theorem parsePair_cores (result : Object) (ws1 kcore ws2 ws3 vcore ws4 : Str)
    (h1 : ∀ c ∈ ws1, c ∈ blanks) (h2 : ∀ c ∈ ws2, c ∈ blanks)
    (h3 : ∀ c ∈ ws3, c ∈ blanks) (h4 : ∀ c ∈ ws4, c ∈ blanks)
    (hk : ':' ∉ kcore) (htk : Trimmed kcore) (htv : Trimmed vcore) :
    parsePair result ((ws1 ++ kcore ++ ws2) ++ ':' :: (ws3 ++ vcore ++ ws4)) =
      result.set (removeQuotes kcore) (removeQuotes vcore) := by
  have hb : ∀ ws : Str, (∀ c ∈ ws, c ∈ blanks) → ':' ∉ ws := by
    intro ws hws hmem
    have := hws _ hmem
    revert this; decide
  have hcolon : ':' ∉ ws1 ++ kcore ++ ws2 := by
    simp only [List.mem_append, not_or]
    exact ⟨⟨hb _ h1, hk⟩, hb _ h2⟩
  have hfind := find_append_of_not_mem ':' _ (ws3 ++ vcore ++ ws4) hcolon
  unfold parsePair
  rw [hfind]
  simp only [substr, substrFrom, List.drop_zero, List.take_left]
  rw [drop_length_succ_append, trim_core ws1 kcore ws2 h1 h2 htk,
    trim_core ws3 vcore ws4 h3 h4 htv]

end SimpleJSON


namespace SimpleJSON

theorem mem_joinComma (segs : List Str) (c : Char) (h : c ∈ joinComma segs) :
    c = ',' ∨ ∃ s ∈ segs, c ∈ s := by
  induction segs with
  | nil => simp [joinComma] at h
  | cons s rest ih =>
    cases rest with
    | nil => exact Or.inr ⟨s, by simp, by simpa [joinComma] using h⟩
    | cons t ts =>
      simp only [joinComma, List.mem_append, List.mem_cons] at h
      rcases h with h | h | h
      · exact Or.inr ⟨s, by simp, h⟩
      · exact Or.inl h
      · rcases ih h with h | ⟨u, hu, h⟩
        · exact Or.inl h
        · exact Or.inr ⟨u, List.mem_cons_of_mem _ hu, h⟩

theorem mem_renderEntry (e : Str × Str) (c : Char) (h : c ∈ renderEntry e) :
    c = '"' ∨ c = ':' ∨ c ∈ e.1 ∨ c ∈ e.2 := by
  simp only [renderEntry, List.mem_append, List.mem_cons, List.mem_singleton,
    List.not_mem_nil, or_false] at h
  tauto

theorem stringify_eq_render (ord : IterationOrder) (obj : Object) :
    stringify ord obj = ['\x7b'] ++ joinComma ((ord.enum obj).map renderEntry) ++ ['\x7d'] := by
  have h : (fun e : Str × Str => (PaddedPair.tight e).segment) = renderEntry := by
    funext e
    simp [PaddedPair.tight, PaddedPair.segment, renderEntry]
  simp only [stringify, stringifyLoop_true, h]

theorem find_not_mem_take (c : Char) (s : Str) (i : Nat) (h : find c s = some i) :
    c ∉ s.take i := by
  induction s generalizing i with
  | nil => simp [find] at h
  | cons x xs ih =>
    unfold find at h
    split at h
    · simp only [Option.some.injEq] at h; subst h; simp
    · rename_i hx
      cases hf : find c xs with
      | none => rw [hf] at h; simp at h
      | some j =>
        rw [hf] at h
        simp only [Option.map_some', Option.some.injEq] at h
        subst h
        simp only [List.take_succ_cons, List.mem_cons, not_or]
        exact ⟨fun e => hx e.symm, ih j hf⟩

/-- Every key of a decoded mapping is free of `{ } , : "` CR LF. -/
theorem parse_key_clean (json : Str) :
    ∀ e ∈ parse json, ∀ c ∈ e.1, c ∉ keyForbidden := by
  unfold parse
  simp only []
  generalize hcl : json.filter (fun c => !isRemoved c) = cleaned
  have hclean : ∀ c ∈ cleaned, isRemoved c = false := by
    intro c hc
    rw [← hcl, List.mem_filter] at hc
    simpa using hc.2
  have key : ∀ (segs : List Str) (acc : Object),
      (∀ seg ∈ segs, ∀ c ∈ seg, c ∈ cleaned ∧ c ≠ ',') →
      (∀ e ∈ acc, ∀ c ∈ e.1, c ∉ keyForbidden) →
      ∀ e ∈ segs.foldl parsePair acc, ∀ c ∈ e.1, c ∉ keyForbidden := by
    intro segs
    induction segs with
    | nil => intro acc _ hacc; simpa using hacc
    | cons seg rest ih =>
      intro acc hsegs hacc
      simp only [List.foldl_cons]
      apply ih
      · intro s hs; exact hsegs s (by simp [hs])
      · intro e he c hc
        unfold parsePair at he
        split at he
        · exact hacc e he c hc
        · rename_i colonPos hfind
          rcases Object.mem_set _ _ _ _ he with h1 | h1
          · exact hacc e h1 c hc
          · subst h1
            simp only [removeQuotes, List.mem_filter, bne_iff_ne, ne_eq] at hc
            have htake : c ∈ seg.take colonPos := by
              have := mem_of_mem_trim _ _ hc.1
              simpa [substr] using this
            have hcolon : c ≠ ':' := by
              intro e
              subst e
              exact find_not_mem_take ':' seg colonPos hfind htake
            have h2 := hsegs seg (by simp) c (List.mem_of_mem_take htake)
            have h3 := hclean c h2.1
            simp only [isRemoved, Bool.or_eq_false_iff, beq_eq_false_iff_ne, ne_eq] at h3
            simp only [keyForbidden, List.mem_cons, List.mem_singleton, List.not_mem_nil,
              or_false, not_or]
            exact ⟨h3.1.1.1, h3.1.1.2, h2.2, hcolon, hc.2, h3.2, h3.1.2⟩
  exact key _ [] (fun seg hseg => mem_of_mem_getlines ',' cleaned seg hseg) (by simp)

end SimpleJSON

theorem serial_readLine_append (pre post : Str) (h : '\n' ∉ pre) :
    SerialPort.readLine (pre ++ '\n' :: post) = (pre, post) := by
  induction pre with
  | nil => simp [SerialPort.readLine]
  | cons x xs ih =>
    have hx : x ≠ '\n' := fun e => h (by simp [e])
    have hxs : '\n' ∉ xs := fun e => h (by simp [e])
    simp [SerialPort.readLine, hx, ih hxs]

theorem tcp_readLine_append (pre post : Str) (h : '\n' ∉ pre) :
    TcpServer.readLine (pre ++ '\n' :: post) = (pre, post) := by
  induction pre with
  | nil => simp [TcpServer.readLine]
  | cons x xs ih =>
    have hx : x ≠ '\n' := fun e => h (by simp [e])
    have hxs : '\n' ∉ xs := fun e => h (by simp [e])
    simp [TcpServer.readLine, hx, ih hxs]

namespace DoorRelayService

theorem handleSerialMessage_doorState (ord : IterationOrder) (env : LogEnv)
    (self : DoorRelayService) (message : Str)
    (h : self.current_door_state_ = "locked".toList ∨
      self.current_door_state_ = "unlocked".toList) :
    (handleSerialMessage ord env self message).1.current_door_state_ = "locked".toList ∨
    (handleSerialMessage ord env self message).1.current_door_state_ = "unlocked".toList := by
  unfold handleSerialMessage
  dsimp only
  split_ifs <;> first
    | exact h
    | (split <;> first | exact Or.inl rfl | exact Or.inr rfl | exact h)

theorem run_doorState (ord : IterationOrder) (inputs : List Input) (self : DoorRelayService)
    (h : self.current_door_state_ = "locked".toList ∨
      self.current_door_state_ = "unlocked".toList) :
    (run ord self inputs).current_door_state_ = "locked".toList ∨
    (run ord self inputs).current_door_state_ = "unlocked".toList := by
  induction inputs generalizing self with
  | nil => exact h
  | cons i rest ih =>
    apply ih
    cases i with
    | serial message env => exact handleSerialMessage_doorState ord env self message h
    | tcp message =>
      simp only [step, handleTcpMessage_state]
      exact h
    | accept => exact h
    | closeClient => exact h

end DoorRelayService

namespace DoorControlClient

theorem handleMessage_event (self : DoorControlClient) (message ev src : Str)
    (hns : (SimpleJSON.parse message).find "type".toList ≠ some "sync_response".toList)
    (hev : (SimpleJSON.parse message).find "event".toList = some ev)
    (hsrc : (SimpleJSON.parse message).find "source".toList = some src) :
    (handleMessage self message).current_door_state_ =
      (if ev = "door_locked".toList then "locked".toList
       else if ev = "door_unlocked".toList then "unlocked".toList
       else self.current_door_state_) := by
  have hnot : ¬ (((SimpleJSON.parse message).find "type".toList).isSome ∧
      (SimpleJSON.parse message).index "type".toList = "sync_response".toList) := by
    rintro ⟨h1, h2⟩
    cases hf : (SimpleJSON.parse message).find "type".toList with
    | none => rw [hf] at h1; cases h1
    | some v =>
      unfold Object.index at h2
      rw [hf] at h2
      simp only [Option.getD_some] at h2
      exact hns (by rw [hf, h2])
  unfold handleMessage
  dsimp only
  rw [if_neg hnot]
  simp only [hev, hsrc, Option.isSome_some, and_self, if_true, Object.index,
    Option.getD_some]
  split_ifs <;> rfl

theorem lockObject_eq :
    lockObject = [("command".toList, "lock".toList), ("source".toList, "laptop".toList)] := by
  decide

theorem unlockObject_eq :
    unlockObject = [("command".toList, "unlock".toList), ("source".toList, "laptop".toList)] := by
  decide

end DoorControlClient

namespace DoorServer

theorem logEvent_status (self : DoorServer) (timestamp source event : Str) :
    (logEvent self timestamp source event).1.current_door_status =
      (if event = "lock".toList then "LOCKED".toList
       else if event = "unlock".toList then "UNLOCKED".toList
       else if event = "error".toList then "ERROR".toList
       else self.current_door_status) := by
  unfold logEvent
  split_ifs <;> simp_all

theorem sendToSerial_status (self : DoorServer) (message : Str) :
    (sendToSerial self message).1.current_door_status = self.current_door_status := by
  unfold sendToSerial
  split_ifs <;> rfl

theorem sendToClient_status (env : ServerEnv) (self : DoorServer) (message : Str) :
    (sendToClient env self message).1.current_door_status = self.current_door_status := by
  unfold sendToClient
  split_ifs <;> rfl

/-- The status after `processMessage`, whichever device the message came from. -/
theorem processMessage_status (env : ServerEnv) (self : DoorServer)
    (jsonMessage sourceDevice : Str) :
    (processMessage env self jsonMessage sourceDevice).1.current_door_status =
      (if parseJSONValue jsonMessage "source".toList = [] ∨
          parseJSONValue jsonMessage "event".toList = [] ∨
          parseJSONValue jsonMessage "timestamp".toList = [] then self.current_door_status
       else if parseJSONValue jsonMessage "event".toList = "lock".toList then "LOCKED".toList
       else if parseJSONValue jsonMessage "event".toList = "unlock".toList then
         "UNLOCKED".toList
       else if parseJSONValue jsonMessage "event".toList = "error".toList then "ERROR".toList
       else self.current_door_status) := by
  unfold processMessage
  dsimp only
  by_cases hmal : parseJSONValue jsonMessage "source".toList = [] ∨
      parseJSONValue jsonMessage "event".toList = [] ∨
      parseJSONValue jsonMessage "timestamp".toList = []
  · simp only [hmal, if_true]
  · simp only [hmal, if_false]
    rw [← logEvent_status self (parseJSONValue jsonMessage "timestamp".toList)
      (parseJSONValue jsonMessage "source".toList) (parseJSONValue jsonMessage "event".toList)]
    split_ifs <;>
      simp only [sendToSerial_status, sendToClient_status]

end DoorServer

/-! ## The relay handlers -/

/-- C1: a peer line accepted as a DeviceEvent (the decoded mapping holds `source` = "stm32"
and an `event` key of value `ev`) leaves the relay with door state "locked" when `ev` is
"door_locked", "unlocked" when `ev` is "door_unlocked", and the door state it had before for
every other `ev`, whether or not the database accepts the row. -/
theorem deviceEvent_sets_door_state (ord : IterationOrder) (env : LogEnv)
    (self : DoorRelayService) (message ev : Str)
    (hsrc : (SimpleJSON.parse message).find "source".toList = some "stm32".toList)
    (hev : (SimpleJSON.parse message).find "event".toList = some ev) :
    (DoorRelayService.handleSerialMessage ord env self message).1.current_door_state_ =
      (if ev = "door_locked".toList then "locked".toList
       else if ev = "door_unlocked".toList then "unlocked".toList
       else self.current_door_state_) :=
  (DoorRelayService.handleSerialMessage_state ord env self message ev hsrc hev).1

/-- Witness of C1: the `door_unlocked` line, handled by a fresh relay whose database refuses
the row, leaves the door state "unlocked". -/
theorem deviceEvent_sets_door_state_witness :
    (SimpleJSON.parse Examples.unlockedEvent).find "source".toList = some "stm32".toList ∧
    (SimpleJSON.parse Examples.unlockedEvent).find "event".toList =
      some "door_unlocked".toList ∧
    (DoorRelayService.handleSerialMessage IterationOrder.insertion Examples.dbRefuses
        Examples.fresh Examples.unlockedEvent).1.current_door_state_ = "unlocked".toList :=
  ⟨by decide, by decide,
    (deviceEvent_sets_door_state IterationOrder.insertion Examples.dbRefuses Examples.fresh
      Examples.unlockedEvent "door_unlocked".toList (by decide) (by decide)).trans (by decide)⟩

/-- C2: handling a line read from the control client, whatever it is, returns the relay
unchanged (door state, last source, last timestamp, the rows of `door_events`, the client
connection) and makes no call of `DatabaseLogger::logEvent`. -/
theorem handleTcpMessage_keeps_state (ord : IterationOrder) (self : DoorRelayService)
    (message : Str) :
    (DoorRelayService.handleTcpMessage ord self message).1.current_door_state_ =
        self.current_door_state_ ∧
    (DoorRelayService.handleTcpMessage ord self message).1.last_event_source_ =
        self.last_event_source_ ∧
    (DoorRelayService.handleTcpMessage ord self message).1.last_event_timestamp_ =
        self.last_event_timestamp_ ∧
    (DoorRelayService.handleTcpMessage ord self message).1.db_logger_ = self.db_logger_ ∧
    logCalls (DoorRelayService.handleTcpMessage ord self message).2 = [] := by
  rw [DoorRelayService.handleTcpMessage_state]
  exact ⟨rfl, rfl, rfl, rfl, DoorRelayService.handleTcpMessage_logCalls ord self message⟩

/-- C3: for a peer line accepted as a DeviceEvent whose row the database accepts,
`handleSerialMessage` writes exactly one line to the peer, which decodes to exactly
{type: "ack", status: "ok"}; with a client connected it writes exactly one line to the client,
the received line itself; with no client it writes nothing to the client; in both cases one row
is appended to `door_events`. -/
theorem deviceEvent_ack_and_forward (ord : IterationOrder) (env : LogEnv)
    (self : DoorRelayService) (message ev : Str)
    (hsrc : (SimpleJSON.parse message).find "source".toList = some "stm32".toList)
    (hev : (SimpleJSON.parse message).find "event".toList = some ev)
    (hprep : env.prepareOk = true) (hstep : env.stepOk = true) :
    (∃ line, serialWrites (DoorRelayService.handleSerialMessage ord env self message).2 = [line] ∧
      Object.sameMap (SimpleJSON.parse line)
        [("type".toList, "ack".toList), ("status".toList, "ok".toList)]) ∧
    (self.hasClient = true →
      tcpWrites (DoorRelayService.handleSerialMessage ord env self message).2 = [message]) ∧
    (self.hasClient = false →
      tcpWrites (DoorRelayService.handleSerialMessage ord env self message).2 = []) ∧
    (DoorRelayService.handleSerialMessage ord env self message).1.db_logger_.door_events =
      self.db_logger_.door_events ++
        [⟨(DoorRelayService.handleSerialMessage ord env self message).1.current_door_state_,
          "stm32".toList, env.currentTimestamp⟩] := by
  obtain ⟨heff, hrows⟩ :=
    DoorRelayService.handleSerialMessage_ok ord env self message ev hsrc hev hprep hstep
  refine ⟨⟨SimpleJSON.stringify ord DoorRelayService.ack, ?_,
    DoorRelayService.parse_stringify_ack ord⟩, ?_, ?_, hrows⟩
  · rw [heff]; cases self.hasClient <;> rfl
  · intro hc; rw [heff, hc]; rfl
  · intro hc; rw [heff, hc]; rfl

/-- Witness of C3: the `door_locked` line with a client connected. -/
theorem deviceEvent_ack_and_forward_witness :
    Examples.dbAccepts.prepareOk = true ∧ Examples.dbAccepts.stepOk = true ∧
    tcpWrites (DoorRelayService.handleSerialMessage IterationOrder.reversed Examples.dbAccepts
      Examples.freshWithClient Examples.lockedEvent).2 = [Examples.lockedEvent] :=
  ⟨rfl, rfl,
    (deviceEvent_ack_and_forward IterationOrder.reversed Examples.dbAccepts
      Examples.freshWithClient Examples.lockedEvent "door_locked".toList (by decide) (by decide)
      rfl rfl).2.1 rfl⟩

/-- C4: in every state the relay can reach, with door state `s`, last source `src` and last
timestamp `T`, handling a client line whose decoded `type` is "SYNC" writes exactly one line,
to the client, and that line decodes to exactly {type: "sync_response", door_state: `s`,
last_source: `src`, last_timestamp: `T`}. -/
theorem syncRequest_reports_state (ord : IterationOrder) (self : DoorRelayService)
    (message : Str) (hreach : DoorRelayService.Reachable ord self)
    (hsync : (SimpleJSON.parse message).find "type".toList = some "SYNC".toList) :
    ∃ line,
      (DoorRelayService.handleTcpMessage ord self message).2 = [Effect.tcpWrite line] ∧
      serialWrites (DoorRelayService.handleTcpMessage ord self message).2 = [] ∧
      Object.sameMap (SimpleJSON.parse line)
        [("type".toList, "sync_response".toList),
          ("door_state".toList, self.current_door_state_),
          ("last_source".toList, self.last_event_source_),
          ("last_timestamp".toList, self.last_event_timestamp_)] := by
  have heff := DoorRelayService.handleTcpMessage_sync ord self message hsync
  refine ⟨_, heff, ?_, DoorRelayService.parse_stringify_syncResponse ord self
    (DoorRelayService.reachable_cleanFields ord self hreach)⟩
  rw [heff]; rfl

/-- Witness of C4: the SyncRequest handled right after construction. -/
theorem syncRequest_reports_state_witness :
    DoorRelayService.Reachable IterationOrder.reversed Examples.fresh ∧
    (SimpleJSON.parse Examples.syncRequest).find "type".toList = some "SYNC".toList ∧
    ∃ line,
      (DoorRelayService.handleTcpMessage IterationOrder.reversed Examples.fresh
        Examples.syncRequest).2 = [Effect.tcpWrite line] ∧
      serialWrites (DoorRelayService.handleTcpMessage IterationOrder.reversed Examples.fresh
        Examples.syncRequest).2 = [] ∧
      Object.sameMap (SimpleJSON.parse line)
        [("type".toList, "sync_response".toList),
          ("door_state".toList, Examples.fresh.current_door_state_),
          ("last_source".toList, Examples.fresh.last_event_source_),
          ("last_timestamp".toList, Examples.fresh.last_event_timestamp_)] :=
  ⟨⟨⟨[], []⟩, [], rfl⟩, by decide,
    syncRequest_reports_state IterationOrder.reversed Examples.fresh Examples.syncRequest
      ⟨⟨[], []⟩, [], rfl⟩ (by decide)⟩

/-- C5: a client line that is not a SyncRequest and whose decoded `command` is "lock" or
"unlock" makes `handleTcpMessage` write the received line itself to the peer, then one line to
the client that decodes to exactly {type: "ack", status: "ok"}, and nothing else; the door
state is unchanged. -/
theorem command_forwarded_and_acked (ord : IterationOrder) (self : DoorRelayService)
    (message command : Str)
    (hns : (SimpleJSON.parse message).find "type".toList ≠ some "SYNC".toList)
    (hc : (SimpleJSON.parse message).find "command".toList = some command)
    (hcmd : command = "lock".toList ∨ command = "unlock".toList) :
    (∃ line,
      (DoorRelayService.handleTcpMessage ord self message).2 =
        [Effect.serialWrite message, Effect.tcpWrite line] ∧
      Object.sameMap (SimpleJSON.parse line)
        [("type".toList, "ack".toList), ("status".toList, "ok".toList)]) ∧
    (DoorRelayService.handleTcpMessage ord self message).1.current_door_state_ =
      self.current_door_state_ := by
  refine ⟨⟨_, DoorRelayService.handleTcpMessage_command ord self message command hns hc hcmd,
    DoorRelayService.parse_stringify_ack ord⟩, ?_⟩
  rw [DoorRelayService.handleTcpMessage_state]

/-- Witness of C5: the lock Command of the control client. -/
theorem command_forwarded_and_acked_witness :
    (SimpleJSON.parse Examples.lockCommand).find "type".toList ≠ some "SYNC".toList ∧
    (SimpleJSON.parse Examples.lockCommand).find "command".toList = some "lock".toList ∧
    serialWrites (DoorRelayService.handleTcpMessage IterationOrder.insertion Examples.fresh
      Examples.lockCommand).2 = [Examples.lockCommand] :=
  ⟨by decide, by decide, by
    obtain ⟨⟨line, h, -⟩, -⟩ := command_forwarded_and_acked IterationOrder.insertion
      Examples.fresh Examples.lockCommand "lock".toList (by decide) (by decide) (Or.inl rfl)
    rw [h]; rfl⟩


/-! ## The codec -/

/-- C6, as stated, fails: the mapping {"a:b": "c"} has a value free of `{ } , : "` and comes
back from the codec as {"a": "b:c"}; the mapping {"k": "a", CR, "b"} has a value free of
`{ } , : "` and comes back without the CR. -/
theorem roundtrip_unconstrained_keys_fails :
    (∀ e ∈ Examples.colonKey, ∀ c ∈ e.2, c ∉ delimiters) ∧
    SimpleJSON.parse (SimpleJSON.stringify IterationOrder.insertion Examples.colonKey) =
      [("a".toList, "b:c".toList)] ∧
    ¬ Object.sameMap
      (SimpleJSON.parse (SimpleJSON.stringify IterationOrder.insertion Examples.colonKey))
      Examples.colonKey ∧
    (∀ e ∈ Examples.returnValue, ∀ c ∈ e.2, c ∉ delimiters) ∧
    ¬ Object.sameMap
      (SimpleJSON.parse (SimpleJSON.stringify IterationOrder.insertion Examples.returnValue))
      Examples.returnValue := by
  decide

/-- C6, amended: for every mapping (one entry per key) whose keys and values contain none of
`{ } , : "` and no CR or LF, parsing the line `stringify` builds, in whatever order it goes
through the entries, gives back a mapping with the same entries. -/
theorem roundtrip_without_delimiters (ord : IterationOrder) (m : Object)
    (hnd : m.keys.Nodup)
    (hk : ∀ e ∈ m, ∀ c ∈ e.1, c ∉ delimiters ∧ c ≠ '\r' ∧ c ≠ '\n')
    (hv : ∀ e ∈ m, ∀ c ∈ e.2, c ∉ delimiters ∧ c ≠ '\r' ∧ c ≠ '\n') :
    Object.sameMap (SimpleJSON.parse (SimpleJSON.stringify ord m)) m := by
  apply SimpleJSON.parse_stringify_sameMap ord m hnd
  · intro e he c hc
    obtain ⟨h1, h2, h3⟩ := hk e he c hc
    simp only [delimiters, keyForbidden, List.mem_cons, List.mem_singleton, List.not_mem_nil,
      or_false, not_or] at h1 ⊢
    exact ⟨h1.1, h1.2.1, h1.2.2.1, h1.2.2.2.1, h1.2.2.2.2, h2, h3⟩
  · intro e he c hc
    obtain ⟨h1, h2, h3⟩ := hv e he c hc
    simp only [delimiters, valueForbidden, List.mem_cons, List.mem_singleton, List.not_mem_nil,
      or_false, not_or] at h1 ⊢
    exact ⟨h1.1, h1.2.1, h1.2.2.1, h1.2.2.2.2, h2, h3⟩

/-- Witness of the amended C6: the command mapping of the client test, iterated in reverse. -/
theorem roundtrip_without_delimiters_witness :
    Examples.lockCommandMap.keys.Nodup ∧
    (∀ e ∈ Examples.lockCommandMap, ∀ c ∈ e.1, c ∉ delimiters ∧ c ≠ '\r' ∧ c ≠ '\n') ∧
    (∀ e ∈ Examples.lockCommandMap, ∀ c ∈ e.2, c ∉ delimiters ∧ c ≠ '\r' ∧ c ≠ '\n') ∧
    Object.sameMap
      (SimpleJSON.parse (SimpleJSON.stringify IterationOrder.reversed Examples.lockCommandMap))
      Examples.lockCommandMap :=
  ⟨by decide, by decide, by decide,
    roundtrip_without_delimiters IterationOrder.reversed Examples.lockCommandMap (by decide)
      (by decide) (by decide)⟩

/-- C7: for pairs with pairwise distinct keys, keys free of `{ } , : "` CR LF, values free of
`{ } , "` CR LF, and any padding of spaces, tabs and line breaks around each quoted key, colon,
quoted value and comma, `parse` of the line `{ "k1" : "v1" , ... , "kn" : "vn" }` returns
exactly the `n` entries, each key mapped to its value (a colon inside a value is kept, and no
key is dropped for being unknown); braces around padding alone give the empty mapping. -/
theorem parse_padded_line (ps : List PaddedPair) (hwf : ∀ p ∈ ps, p.WellFormed)
    (hnd : (ps.map PaddedPair.key).Nodup) :
    SimpleJSON.parse (paddedLine ps) = ps.map PaddedPair.entry ∧
    (SimpleJSON.parse (paddedLine ps)).length = ps.length ∧
    (∀ p ∈ ps, (SimpleJSON.parse (paddedLine ps)).find p.key = some p.value) ∧
    (∀ pad : Str, (∀ c ∈ pad, c ∈ padding) → SimpleJSON.parse ('{' :: (pad ++ ['}'])) = []) := by
  have h := SimpleJSON.parse_paddedLine ps hwf hnd
  refine ⟨h, by rw [h, List.length_map], ?_, SimpleJSON.parse_padded_braces⟩
  intro p hp
  rw [h]
  apply Object.find_of_mem_nodup
  · simpa [Object.keys, PaddedPair.entry, Function.comp_def] using hnd
  · exact List.mem_map.mpr ⟨p, hp, rfl⟩

/-- Witness of C7: the line of the parser test `ParseWithWhitespace`, whose timestamp value
holds two colons. -/
theorem parse_padded_line_witness :
    (∀ p ∈ Examples.whitespaceTest, p.WellFormed) ∧
    (Examples.whitespaceTest.map PaddedPair.key).Nodup ∧
    paddedLine Examples.whitespaceTest = Examples.whitespaceTestLine ∧
    SimpleJSON.parse (paddedLine Examples.whitespaceTest) =
      [("source".toList, "stm32".toList), ("event".toList, "door_locked".toList),
        ("timestamp".toList, "2025-06-08T10:25:00Z".toList)] :=
  ⟨by decide, by decide, by decide,
    (parse_padded_line Examples.whitespaceTest (by decide) (by decide)).1⟩


/-! ## The state store -/

/-- C8, as stated, fails: the row appended for the example `door_locked` line carries the
`CURRENT_TIMESTAMP` of the database, not the timestamp of the message, and the same line with
another timestamp appends the very same row. -/
theorem history_timestamp_is_not_the_message_timestamp :
    (SimpleJSON.parse Examples.lockedEvent).index "timestamp".toList =
      "2025-06-08T10:25:00Z".toList ∧
    (DoorRelayService.handleSerialMessage IterationOrder.insertion Examples.dbAccepts
        Examples.fresh Examples.lockedEvent).1.db_logger_.door_events =
      [⟨"locked".toList, "stm32".toList, "2025-06-08 10:25:01".toList⟩] ∧
    (DoorRelayService.handleSerialMessage IterationOrder.insertion Examples.dbAccepts
        Examples.fresh Examples.lockedEvent).1.db_logger_.door_events.getLast? ≠
      some ⟨"locked".toList, "stm32".toList,
        (SimpleJSON.parse Examples.lockedEvent).index "timestamp".toList⟩ ∧
    (DoorRelayService.handleSerialMessage IterationOrder.insertion Examples.dbAccepts
        Examples.fresh Examples.lockedEventLater).1.db_logger_.door_events =
      (DoorRelayService.handleSerialMessage IterationOrder.insertion Examples.dbAccepts
        Examples.fresh Examples.lockedEvent).1.db_logger_.door_events := by
  decide

/-- C8, amended: for an accepted DeviceEvent with event "door_locked" (resp. "door_unlocked")
whose row the database accepts, the row appended through `DatabaseLogger::logEvent` is the most
recent one and holds the state "locked" (resp. "unlocked"), the source "stm32" of the message,
and as timestamp the `CURRENT_TIMESTAMP` of the database; the timestamp carried by the message
is kept as the relay's last timestamp. -/
theorem history_row_of_device_event (ord : IterationOrder) (env : LogEnv)
    (self : DoorRelayService) (message ev : Str)
    (hsrc : (SimpleJSON.parse message).find "source".toList = some "stm32".toList)
    (hev : (SimpleJSON.parse message).find "event".toList = some ev)
    (hrec : ev = "door_locked".toList ∨ ev = "door_unlocked".toList)
    (hprep : env.prepareOk = true) (hstep : env.stepOk = true) :
    (DoorRelayService.handleSerialMessage ord env self message).1.db_logger_.door_events =
      self.db_logger_.door_events ++
        [⟨if ev = "door_locked".toList then "locked".toList else "unlocked".toList,
          "stm32".toList, env.currentTimestamp⟩] ∧
    (DoorRelayService.handleSerialMessage ord env self message).1.db_logger_.door_events.getLast? =
      some ⟨if ev = "door_locked".toList then "locked".toList else "unlocked".toList,
        "stm32".toList, env.currentTimestamp⟩ ∧
    (DoorRelayService.handleSerialMessage ord env self message).1.last_event_timestamp_ =
      (SimpleJSON.parse message).index "timestamp".toList := by
  obtain ⟨-, hrows⟩ :=
    DoorRelayService.handleSerialMessage_ok ord env self message ev hsrc hev hprep hstep
  obtain ⟨hst, -, hts, -⟩ :=
    DoorRelayService.handleSerialMessage_state ord env self message ev hsrc hev
  have hstate : (DoorRelayService.handleSerialMessage ord env self message).1.current_door_state_
      = if ev = "door_locked".toList then "locked".toList else "unlocked".toList := by
    rw [hst]
    rcases hrec with h | h
    · simp only [h, if_true]
    · have hne : "door_unlocked".toList ≠ "door_locked".toList := by decide
      simp only [h, hne, if_false, if_true]
  rw [hstate] at hrows
  refine ⟨hrows, ?_, hts⟩
  rw [hrows, List.getLast?_append, List.getLast?_singleton]
  rfl

/-- Witness of the amended C8: the example `door_unlocked` line. -/
theorem history_row_of_device_event_witness :
    (SimpleJSON.parse Examples.unlockedEvent).find "source".toList = some "stm32".toList ∧
    (SimpleJSON.parse Examples.unlockedEvent).find "event".toList =
      some "door_unlocked".toList ∧
    (DoorRelayService.handleSerialMessage IterationOrder.insertion Examples.dbAccepts
        Examples.fresh Examples.unlockedEvent).1.db_logger_.door_events =
      [⟨"unlocked".toList, "stm32".toList, "2025-06-08 10:25:01".toList⟩] :=
  ⟨by decide, by decide,
    (history_row_of_device_event IterationOrder.insertion Examples.dbAccepts Examples.fresh
      Examples.unlockedEvent "door_unlocked".toList (by decide) (by decide) (Or.inr rfl)
      rfl rfl).1.trans (by decide)⟩

/-- C9 at a failing input: a peer line with source "stm32" and event "heartbeat" leaves the
door state "locked", yet `handleSerialMessage` calls `DatabaseLogger::logEvent` once and one
row (locked, stm32) is appended to `door_events`. -/
theorem unrecognized_event_is_logged :
    (SimpleJSON.parse Examples.heartbeatEvent).find "source".toList = some "stm32".toList ∧
    (SimpleJSON.parse Examples.heartbeatEvent).find "event".toList = some "heartbeat".toList ∧
    (DoorRelayService.handleSerialMessage IterationOrder.insertion Examples.dbAccepts
        Examples.fresh Examples.heartbeatEvent).1.current_door_state_ =
      Examples.fresh.current_door_state_ ∧
    logCalls (DoorRelayService.handleSerialMessage IterationOrder.insertion Examples.dbAccepts
        Examples.fresh Examples.heartbeatEvent).2 = [("locked".toList, "stm32".toList)] ∧
    (DoorRelayService.handleSerialMessage IterationOrder.insertion Examples.dbAccepts
        Examples.fresh Examples.heartbeatEvent).1.db_logger_.door_events =
      [⟨"locked".toList, "stm32".toList, "2025-06-08 10:25:01".toList⟩] := by
  decide


/-- C10: start from a freshly constructed relay and handle any sequence of peer and client
lines (and client connections) along which no call of `DatabaseLogger::logEvent` fails and at
least one row is appended.  Then the table is the initial table followed by the appended rows,
and for the most recently appended row and the peer line that produced it: the row is the last
row of the table, the relay's door state is the row's state, its last source is the row's
source, its last timestamp is the `timestamp` value of that peer line, and the line written in
answer to a SyncRequest decodes to exactly these values. -/
theorem state_follows_last_history_entry (ord : IterationOrder) (db : DatabaseLogger)
    (inputs : List DoorRelayService.Input) (hok : DoorRelayService.NoLogFailure inputs)
    (hne : DoorRelayService.appended ord (DoorRelayService.new db) inputs ≠ []) :
    ∃ row line,
      (DoorRelayService.appended ord (DoorRelayService.new db) inputs).getLast? =
        some (row, line) ∧
      (DoorRelayService.run ord (DoorRelayService.new db) inputs).db_logger_.door_events =
        db.door_events ++
          (DoorRelayService.appended ord (DoorRelayService.new db) inputs).map Prod.fst ∧
      (DoorRelayService.run ord (DoorRelayService.new db) inputs).db_logger_.door_events.getLast?
        = some row ∧
      (DoorRelayService.run ord (DoorRelayService.new db) inputs).current_door_state_ =
        row.state ∧
      (DoorRelayService.run ord (DoorRelayService.new db) inputs).last_event_source_ =
        row.source ∧
      (DoorRelayService.run ord (DoorRelayService.new db) inputs).last_event_timestamp_ =
        (SimpleJSON.parse line).index "timestamp".toList ∧
      ∀ message, (SimpleJSON.parse message).find "type".toList = some "SYNC".toList →
        ∃ out,
          (DoorRelayService.handleTcpMessage ord
            (DoorRelayService.run ord (DoorRelayService.new db) inputs) message).2 =
              [Effect.tcpWrite out] ∧
          Object.sameMap (SimpleJSON.parse out)
            [("type".toList, "sync_response".toList),
              ("door_state".toList, row.state),
              ("last_source".toList, row.source),
              ("last_timestamp".toList, (SimpleJSON.parse line).index "timestamp".toList)] := by
  obtain ⟨hrows, -, hlast⟩ := DoorRelayService.run_appended ord inputs (DoorRelayService.new db) hok
  cases hA : (DoorRelayService.appended ord (DoorRelayService.new db) inputs).getLast? with
  | none => exact absurd (List.getLast?_eq_none_iff.mp hA) hne
  | some produced =>
    obtain ⟨row, line⟩ := produced
    obtain ⟨hst, hsrc, hts⟩ := hlast (row, line) hA
    refine ⟨row, line, rfl, hrows, ?_, hst, hsrc, hts, ?_⟩
    · rw [hrows, List.getLast?_append, List.getLast?_map, hA]
      rfl
    · intro message hsync
      have hclean := DoorRelayService.run_cleanFields ord inputs (DoorRelayService.new db)
        (DoorRelayService.new_cleanFields db)
      have hmap := DoorRelayService.parse_stringify_syncResponse ord _ hclean
      rw [hst, hsrc, hts] at hmap
      exact ⟨_, DoorRelayService.handleTcpMessage_sync ord _ message hsync, hmap⟩

/-- Witness of C10: in the example session the `door_unlocked` line is the last one that
appended a row, and the relay ends "unlocked". -/
theorem state_follows_last_history_entry_witness :
    DoorRelayService.NoLogFailure Examples.session ∧
    DoorRelayService.appended IterationOrder.insertion Examples.fresh Examples.session ≠ [] ∧
    (DoorRelayService.run IterationOrder.insertion Examples.fresh
      Examples.session).current_door_state_ = "unlocked".toList := by
  have hok : DoorRelayService.NoLogFailure Examples.session := by
    intro message env hm hdev
    simp only [Examples.session, List.mem_cons, List.mem_singleton, List.not_mem_nil, or_false,
      DoorRelayService.Input.serial.injEq, reduceCtorEq, false_or] at hm
    rcases hm with ⟨rfl, rfl⟩ | ⟨rfl, rfl⟩
    · exact ⟨rfl, rfl⟩
    · exact absurd hdev (by decide)
  have hne : DoorRelayService.appended IterationOrder.insertion Examples.fresh Examples.session
      ≠ [] := by decide
  refine ⟨hok, hne, ?_⟩
  obtain ⟨row, line, hlast, -, -, hstate, -⟩ :=
    state_follows_last_history_entry IterationOrder.insertion ⟨[], []⟩ Examples.session hok hne
  have hcalc : (DoorRelayService.appended IterationOrder.insertion
      (DoorRelayService.new ⟨[], []⟩) Examples.session).getLast? =
      some (⟨"unlocked".toList, "stm32".toList, "2025-06-08 10:25:01".toList⟩,
        Examples.unlockedEvent) := by decide
  rw [hcalc] at hlast
  cases hlast
  exact hstate



/-! ## Repeated requests, failures and ignored lines -/

/-- C11: in every relay state, handling a SyncRequest line and then a second one, with nothing
handled in between, writes to the client two identical response lines, and the relay after the
second is the relay before the first. -/
theorem syncRequest_idempotent (ord : IterationOrder) (self : DoorRelayService)
    (first second : Str)
    (h1 : (SimpleJSON.parse first).find "type".toList = some "SYNC".toList)
    (h2 : (SimpleJSON.parse second).find "type".toList = some "SYNC".toList) :
    ∃ line,
      (DoorRelayService.handleTcpMessage ord self first).2 = [Effect.tcpWrite line] ∧
      (DoorRelayService.handleTcpMessage ord
        (DoorRelayService.handleTcpMessage ord self first).1 second).2 =
          [Effect.tcpWrite line] ∧
      (DoorRelayService.handleTcpMessage ord
        (DoorRelayService.handleTcpMessage ord self first).1 second).1 = self := by
  refine ⟨_, DoorRelayService.handleTcpMessage_sync ord self first h1, ?_, ?_⟩
  · rw [DoorRelayService.handleTcpMessage_state]
    exact DoorRelayService.handleTcpMessage_sync ord self second h2
  · rw [DoorRelayService.handleTcpMessage_state, DoorRelayService.handleTcpMessage_state]

/-- Witness of C11: the SyncRequest sent twice to a relay that handled `door_unlocked`. -/
theorem syncRequest_idempotent_witness :
    (SimpleJSON.parse Examples.syncRequest).find "type".toList = some "SYNC".toList ∧
    ∃ line,
      (DoorRelayService.handleTcpMessage IterationOrder.reversed Examples.unlockedRelay
        Examples.syncRequest).2 = [Effect.tcpWrite line] ∧
      (DoorRelayService.handleTcpMessage IterationOrder.reversed
        (DoorRelayService.handleTcpMessage IterationOrder.reversed Examples.unlockedRelay
          Examples.syncRequest).1 Examples.syncRequest).2 = [Effect.tcpWrite line] ∧
      (DoorRelayService.handleTcpMessage IterationOrder.reversed
        (DoorRelayService.handleTcpMessage IterationOrder.reversed Examples.unlockedRelay
          Examples.syncRequest).1 Examples.syncRequest).1 = Examples.unlockedRelay :=
  ⟨by decide,
    syncRequest_idempotent IterationOrder.reversed Examples.unlockedRelay Examples.syncRequest
      Examples.syncRequest (by decide) (by decide)⟩

/-- C12, as stated, fails: a fresh relay ("locked", no source, no timestamp) handles the
`door_unlocked` line while `sqlite3_step` fails; no row is appended, yet the relay ends
"unlocked" with source "stm32" and the timestamp of the message, and the answer to a later
SyncRequest carries that state. -/
theorem failed_append_still_changes_state :
    Examples.dbRefuses.stepOk = false ∧
    Examples.fresh.current_door_state_ = "locked".toList ∧
    (DoorRelayService.handleSerialMessage IterationOrder.insertion Examples.dbRefuses
      Examples.fresh Examples.unlockedEvent).1.db_logger_.door_events = [] ∧
    (DoorRelayService.handleSerialMessage IterationOrder.insertion Examples.dbRefuses
      Examples.fresh Examples.unlockedEvent).1.current_door_state_ = "unlocked".toList ∧
    (DoorRelayService.handleSerialMessage IterationOrder.insertion Examples.dbRefuses
      Examples.fresh Examples.unlockedEvent).1.last_event_source_ = "stm32".toList ∧
    (DoorRelayService.handleSerialMessage IterationOrder.insertion Examples.dbRefuses
      Examples.fresh Examples.unlockedEvent).1.last_event_timestamp_ =
        "2025-06-08T10:25:00Z".toList ∧
    (DoorRelayService.handleTcpMessage IterationOrder.insertion
      (DoorRelayService.handleSerialMessage IterationOrder.insertion Examples.dbRefuses
        Examples.fresh Examples.unlockedEvent).1 Examples.syncRequest).2 =
      [Effect.tcpWrite
        ("\x7b\"type\":\"sync_response\",\"door_state\":\"unlocked\"," ++
          "\"last_source\":\"stm32\",\"last_timestamp\":\"2025-06-08T10:25:00Z\"\x7d").toList] := by
  decide

/-- C12, amended: if `DatabaseLogger::logEvent` raises while `handleSerialMessage` handles an
accepted DeviceEvent, no row is appended, and after the handler returns the door state is the
one the event asks for ("locked" for "door_locked", "unlocked" for "door_unlocked", the former
state otherwise), the last source is "stm32" and the last timestamp is the `timestamp` value of
the message: the three strings are those of the message, not those before the call. -/
theorem failed_append_keeps_new_state (ord : IterationOrder) (env : LogEnv)
    (self : DoorRelayService) (message ev : Str)
    (hsrc : (SimpleJSON.parse message).find "source".toList = some "stm32".toList)
    (hev : (SimpleJSON.parse message).find "event".toList = some ev)
    (hfail : env.prepareOk = false ∨ env.stepOk = false) :
    (DoorRelayService.handleSerialMessage ord env self message).1.db_logger_.door_events =
      self.db_logger_.door_events ∧
    (DoorRelayService.handleSerialMessage ord env self message).1.current_door_state_ =
      (if ev = "door_locked".toList then "locked".toList
       else if ev = "door_unlocked".toList then "unlocked".toList
       else self.current_door_state_) ∧
    (DoorRelayService.handleSerialMessage ord env self message).1.last_event_source_ =
      "stm32".toList ∧
    (DoorRelayService.handleSerialMessage ord env self message).1.last_event_timestamp_ =
      (SimpleJSON.parse message).index "timestamp".toList := by
  obtain ⟨hst, hsource, hts, -⟩ :=
    DoorRelayService.handleSerialMessage_state ord env self message ev hsrc hev
  obtain ⟨-, hdb⟩ :=
    DoorRelayService.handleSerialMessage_failed ord env self message ev hsrc hev hfail
  exact ⟨by rw [hdb], hst, hsource, hts⟩

/-- Witness of the amended C12: the `door_unlocked` line while `sqlite3_step` fails. -/
theorem failed_append_keeps_new_state_witness :
    (SimpleJSON.parse Examples.unlockedEvent).find "source".toList = some "stm32".toList ∧
    (SimpleJSON.parse Examples.unlockedEvent).find "event".toList =
      some "door_unlocked".toList ∧
    (Examples.dbRefuses.prepareOk = false ∨ Examples.dbRefuses.stepOk = false) ∧
    (DoorRelayService.handleSerialMessage IterationOrder.insertion Examples.dbRefuses
      Examples.fresh Examples.unlockedEvent).1.last_event_source_ = "stm32".toList :=
  ⟨by decide, by decide, Or.inr rfl,
    (failed_append_keeps_new_state IterationOrder.insertion Examples.dbRefuses Examples.fresh
      Examples.unlockedEvent "door_unlocked".toList (by decide) (by decide)
      (Or.inr rfl)).2.2.1⟩

/-- C13: for an accepted DeviceEvent the first thing `handleSerialMessage` does to the outside
is the call of `DatabaseLogger::logEvent`.  If that call raises, the only other effect is the
line the `catch` block prints: no Ack goes to the peer, nothing goes to the client, the table is
unchanged, and the handler returns.  If it does not raise, a row is appended and the effects
are, in this order, the call of `logEvent`, the Ack to the peer, and the forwarded line when a
client is connected. -/
theorem append_precedes_writes (ord : IterationOrder) (env : LogEnv)
    (self : DoorRelayService) (message ev : Str)
    (hsrc : (SimpleJSON.parse message).find "source".toList = some "stm32".toList)
    (hev : (SimpleJSON.parse message).find "event".toList = some ev) :
    ((env.prepareOk = false ∨ env.stepOk = false) →
      (∃ state text, (DoorRelayService.handleSerialMessage ord env self message).2 =
        [Effect.logEvent state "stm32".toList, Effect.cerr text]) ∧
      serialWrites (DoorRelayService.handleSerialMessage ord env self message).2 = [] ∧
      tcpWrites (DoorRelayService.handleSerialMessage ord env self message).2 = [] ∧
      (DoorRelayService.handleSerialMessage ord env self message).1.db_logger_ =
        self.db_logger_) ∧
    ((env.prepareOk = true ∧ env.stepOk = true) →
      (∃ state, (DoorRelayService.handleSerialMessage ord env self message).2 =
        [Effect.logEvent state "stm32".toList,
          Effect.serialWrite (SimpleJSON.stringify ord DoorRelayService.ack)] ++
          (if self.hasClient then [Effect.tcpWrite message] else []) ∧
        (DoorRelayService.handleSerialMessage ord env self message).1.db_logger_.door_events =
          self.db_logger_.door_events ++ [⟨state, "stm32".toList, env.currentTimestamp⟩])) := by
  constructor
  · intro hfail
    obtain ⟨heff, hdb⟩ :=
      DoorRelayService.handleSerialMessage_failed ord env self message ev hsrc hev hfail
    refine ⟨⟨_, _, heff⟩, ?_, ?_, hdb⟩
    · rw [heff]; rfl
    · rw [heff]; rfl
  · intro hok
    obtain ⟨heff, hrows⟩ :=
      DoorRelayService.handleSerialMessage_ok ord env self message ev hsrc hev hok.1 hok.2
    exact ⟨_, heff, hrows⟩

/-- Witness of C13: the `door_locked` line with a client connected and a failing insert. -/
theorem append_precedes_writes_witness :
    (SimpleJSON.parse Examples.lockedEvent).find "source".toList = some "stm32".toList ∧
    (SimpleJSON.parse Examples.lockedEvent).find "event".toList = some "door_locked".toList ∧
    serialWrites (DoorRelayService.handleSerialMessage IterationOrder.insertion
      Examples.dbRefuses Examples.freshWithClient Examples.lockedEvent).2 = [] :=
  ⟨by decide, by decide,
    ((append_precedes_writes IterationOrder.insertion Examples.dbRefuses
      Examples.freshWithClient Examples.lockedEvent "door_locked".toList (by decide)
      (by decide)).1 (Or.inr rfl)).2.1⟩

/-- C14: a peer line whose decoded mapping lacks the key `source`, or lacks the key `event`, or
holds a `source` other than "stm32" (the empty line and a line without colon are such lines) is
ignored by `handleSerialMessage`: the relay is returned unchanged, table included, and there is
no effect at all: no call of `logEvent`, no write to the peer or the client, no exception
caught or raised. -/
theorem foreign_peer_line_ignored (ord : IterationOrder) (env : LogEnv)
    (self : DoorRelayService) (message : Str)
    (h : (SimpleJSON.parse message).find "source".toList = none ∨
      (SimpleJSON.parse message).find "event".toList = none ∨
      (SimpleJSON.parse message).find "source".toList ≠ some "stm32".toList) :
    DoorRelayService.handleSerialMessage ord env self message = (self, []) :=
  DoorRelayService.handleSerialMessage_rejected ord env self message
    (DoorRelayService.isDeviceEvent_false _ h)

/-- Witness of C14: the line `"source""stm32"` of the scenario, and the empty line. -/
theorem foreign_peer_line_ignored_witness :
    (SimpleJSON.parse Examples.missingColon).find "source".toList = none ∧
    DoorRelayService.handleSerialMessage IterationOrder.insertion Examples.dbAccepts
      Examples.freshWithClient Examples.missingColon = (Examples.freshWithClient, []) ∧
    DoorRelayService.handleSerialMessage IterationOrder.insertion Examples.dbAccepts
      Examples.freshWithClient [] = (Examples.freshWithClient, []) :=
  ⟨by decide,
    foreign_peer_line_ignored IterationOrder.insertion Examples.dbAccepts
      Examples.freshWithClient Examples.missingColon (Or.inl (by decide)),
    foreign_peer_line_ignored IterationOrder.insertion Examples.dbAccepts
      Examples.freshWithClient [] (Or.inl (by decide))⟩

/-- C15: a client line that is neither a SyncRequest nor a Command whose `command` is "lock"
or "unlock" is ignored by `handleTcpMessage`: the relay is returned unchanged and nothing is
written to the peer or to the client. -/
theorem other_client_line_ignored (ord : IterationOrder) (self : DoorRelayService)
    (message : Str)
    (hns : (SimpleJSON.parse message).find "type".toList ≠ some "SYNC".toList)
    (hl : (SimpleJSON.parse message).find "command".toList ≠ some "lock".toList)
    (hu : (SimpleJSON.parse message).find "command".toList ≠ some "unlock".toList) :
    DoorRelayService.handleTcpMessage ord self message = (self, []) :=
  DoorRelayService.handleTcpMessage_ignored ord self message hns hl hu

/-- Witness of C15: the Command "open", and a line shaped like a DeviceEvent. -/
theorem other_client_line_ignored_witness :
    (SimpleJSON.parse Examples.openCommand).find "command".toList = some "open".toList ∧
    DoorRelayService.handleTcpMessage IterationOrder.insertion Examples.fresh
      Examples.openCommand = (Examples.fresh, []) ∧
    DoorRelayService.handleTcpMessage IterationOrder.insertion Examples.fresh
      Examples.unlockedEvent = (Examples.fresh, []) :=
  ⟨by decide,
    other_client_line_ignored IterationOrder.insertion Examples.fresh Examples.openCommand
      (by decide) (by decide) (by decide),
    other_client_line_ignored IterationOrder.insertion Examples.fresh Examples.unlockedEvent
      (by decide) (by decide) (by decide)⟩

/-- C16 at a failing input: the peer line with source "stm32", event "door_unlocked" and no
`timestamp` key is not discarded.  The relay ends "unlocked" with an empty last timestamp, the
row (unlocked, stm32) is appended, the Ack goes to the peer and the line is forwarded to the
client. -/
theorem event_without_timestamp_is_accepted :
    (SimpleJSON.parse Examples.noTimestampEvent).find "source".toList = some "stm32".toList ∧
    (SimpleJSON.parse Examples.noTimestampEvent).find "event".toList =
      some "door_unlocked".toList ∧
    (SimpleJSON.parse Examples.noTimestampEvent).find "timestamp".toList = none ∧
    (DoorRelayService.handleSerialMessage IterationOrder.insertion Examples.dbAccepts
      Examples.freshWithClient Examples.noTimestampEvent).1.current_door_state_ =
        "unlocked".toList ∧
    (DoorRelayService.handleSerialMessage IterationOrder.insertion Examples.dbAccepts
      Examples.freshWithClient Examples.noTimestampEvent).1.last_event_timestamp_ = [] ∧
    (DoorRelayService.handleSerialMessage IterationOrder.insertion Examples.dbAccepts
      Examples.freshWithClient Examples.noTimestampEvent).1.db_logger_.door_events =
        [⟨"unlocked".toList, "stm32".toList, "2025-06-08 10:25:01".toList⟩] ∧
    (DoorRelayService.handleSerialMessage IterationOrder.insertion Examples.dbAccepts
      Examples.freshWithClient Examples.noTimestampEvent).2 =
        [Effect.logEvent "unlocked".toList "stm32".toList,
          Effect.serialWrite "\x7b\"type\":\"ack\",\"status\":\"ok\"\x7d".toList,
          Effect.tcpWrite Examples.noTimestampEvent] := by
  decide


/-! ## The client adapter -/

/-- C17: for every reachable relay state and every client, `requestSync` writes one line; the
relay's `handleTcpMessage` answers that line with one line to the client; and once
`DoorControlClient::handleMessage` has handled the answer, `getCurrentState()` is the relay's
door state.  The relay and the client may iterate their maps in different orders. -/
theorem sync_round_trip_agrees (ordClient ordRelay : IterationOrder)
    (relay : DoorRelayService) (client : DoorControlClient)
    (hreach : DoorRelayService.Reachable ordRelay relay) :
    ∃ request response,
      (DoorControlClient.requestSync ordClient client).2 = [request] ∧
      (DoorRelayService.handleTcpMessage ordRelay relay request).2 =
        [Effect.tcpWrite response] ∧
      (DoorControlClient.handleMessage (DoorControlClient.requestSync ordClient client).1
        response).getCurrentState = relay.current_door_state_ := by
  have hreq := DoorControlClient.parse_requestSync ordClient
  refine ⟨_, _, rfl, DoorRelayService.handleTcpMessage_sync ordRelay relay _ hreq, ?_⟩
  have hmap := DoorRelayService.parse_stringify_syncResponse ordRelay relay
    (DoorRelayService.reachable_cleanFields ordRelay relay hreach)
  have hnd : (Object.keys
      [("type".toList, "sync_response".toList),
        ("door_state".toList, relay.current_door_state_),
        ("last_source".toList, relay.last_event_source_),
        ("last_timestamp".toList, relay.last_event_timestamp_)]).Nodup := by
    simp only [Object.keys, List.map]
    decide
  have htype := Object.find_of_perm _ _ "type".toList "sync_response".toList hmap hnd
    (by simp)
  have hstate := Object.find_of_perm _ _ "door_state".toList relay.current_door_state_ hmap hnd
    (by simp)
  unfold DoorControlClient.getCurrentState
  rw [DoorControlClient.handleMessage_syncResponse _ _ htype]
  exact DoorRelayService.index_of_find _ _ _ hstate

/-- Witness of C17: a new client ("unknown") asks a relay that handled `door_unlocked`. -/
theorem sync_round_trip_agrees_witness :
    DoorRelayService.Reachable IterationOrder.reversed Examples.unlockedRelay ∧
    ∃ request response,
      (DoorControlClient.requestSync IterationOrder.insertion DoorControlClient.new).2 =
        [request] ∧
      (DoorRelayService.handleTcpMessage IterationOrder.reversed Examples.unlockedRelay
        request).2 = [Effect.tcpWrite response] ∧
      (DoorControlClient.handleMessage
        (DoorControlClient.requestSync IterationOrder.insertion DoorControlClient.new).1
        response).getCurrentState = Examples.unlockedRelay.current_door_state_ :=
  ⟨⟨⟨[], []⟩, [DoorRelayService.Input.serial Examples.unlockedEvent Examples.dbAccepts], rfl⟩,
    sync_round_trip_agrees IterationOrder.insertion IterationOrder.reversed
      Examples.unlockedRelay DoorControlClient.new
      ⟨⟨[], []⟩, [DoorRelayService.Input.serial Examples.unlockedEvent Examples.dbAccepts], rfl⟩⟩

/-- C18, as stated, fails: a new client that receives the SyncResponse line with
`door_state` "ajar" caches "ajar", which is none of "locked", "unlocked", "unknown". -/
theorem client_caches_any_door_state :
    (DoorControlClient.receive DoorControlClient.new [Examples.ajarResponse]).getCurrentState =
      "ajar".toList ∧
    (DoorControlClient.receive DoorControlClient.new [Examples.ajarResponse]).getCurrentState ∉
      DoorControlClient.doorStates := by
  decide

/-- C18, amended: start from a new client and pass any sequence of received lines to
`handleMessage`; if every line among them that is handled as a SyncResponse carries a
`door_state` that is one of "locked", "unlocked", "unknown", then the cached door state returned
by `getCurrentState()` is one of "locked", "unlocked", "unknown". -/
theorem client_door_state_in_range (lines : List Str)
    (h : ∀ message ∈ lines, DoorControlClient.isSyncResponse message →
      (SimpleJSON.parse message).index "door_state".toList ∈ DoorControlClient.doorStates) :
    (DoorControlClient.receive DoorControlClient.new lines).getCurrentState ∈
      DoorControlClient.doorStates := by
  have key : ∀ (ls : List Str) (c : DoorControlClient),
      c.current_door_state_ ∈ DoorControlClient.doorStates →
      (∀ message ∈ ls, DoorControlClient.isSyncResponse message →
        (SimpleJSON.parse message).index "door_state".toList ∈ DoorControlClient.doorStates) →
      (DoorControlClient.receive c ls).current_door_state_ ∈ DoorControlClient.doorStates := by
    intro ls
    induction ls with
    | nil => intro c hc _; exact hc
    | cons m rest ih =>
      intro c hc hls
      exact ih _ (DoorControlClient.handleMessage_doorStates c m hc (hls m (by simp)))
        (fun x hx => hls x (by simp [hx]))
  exact key lines DoorControlClient.new (by decide) h

/-- Witness of the amended C18: a forwarded `door_unlocked` event, a line without colon, then a
SyncResponse reporting "locked". -/
theorem client_door_state_in_range_witness :
    (∀ message ∈ [Examples.unlockedEvent, Examples.missingColon, Examples.lockedResponse],
      DoorControlClient.isSyncResponse message →
      (SimpleJSON.parse message).index "door_state".toList ∈ DoorControlClient.doorStates) ∧
    (DoorControlClient.receive DoorControlClient.new
      [Examples.unlockedEvent, Examples.missingColon, Examples.lockedResponse]).getCurrentState ∈
      DoorControlClient.doorStates :=
  ⟨by decide,
    client_door_state_in_range
      [Examples.unlockedEvent, Examples.missingColon, Examples.lockedResponse] (by decide)⟩

/-! ## Decoding never fails -/

/-- C19: a line without any ':' decodes to the empty mapping, and the call of `parse` returns
it without raising. -/
theorem parse_without_colon_is_empty (json : Str) (h : ':' ∉ json) :
    SimpleJSON.parse json = [] ∧ SimpleJSON.parseChecked json = Except.ok [] := by
  have hp := SimpleJSON.parse_of_no_colon json h
  exact ⟨hp, by rw [SimpleJSON.parseChecked_eq, hp]⟩

/-- Witness of C19: the line `"source""stm32"`. -/
theorem parse_without_colon_is_empty_witness :
    ':' ∉ Examples.missingColon ∧
    SimpleJSON.parse Examples.missingColon = [] ∧
    SimpleJSON.parseChecked Examples.missingColon = Except.ok [] :=
  ⟨by decide, parse_without_colon_is_empty Examples.missingColon (by decide)⟩

/-- C20, as stated, fails: the empty line has no segment, and `parse` returns the empty mapping
for it instead of raising, exactly as it does for the line of two braces. -/
theorem parse_of_empty_line_is_no_error :
    getlines ',' (([] : Str).filter (fun c => !SimpleJSON.isRemoved c)) = [] ∧
    SimpleJSON.parseChecked [] = Except.ok [] ∧
    SimpleJSON.parseChecked ['\x7b', '\x7d'] = SimpleJSON.parseChecked [] :=
  ⟨rfl, rfl, rfl⟩

/-- C20, amended: `parse` never yields a decode error.  For every line, with or without a
segment, the call returns a mapping (the one the loop of `parse` builds), and for the empty
line that mapping is empty. -/
theorem parse_never_fails (json : Str) :
    SimpleJSON.parseChecked json = Except.ok (SimpleJSON.parse json) ∧
    SimpleJSON.parseChecked [] = Except.ok [] :=
  ⟨SimpleJSON.parseChecked_eq json, SimpleJSON.parseChecked_eq []⟩



/-! ## What the codec keeps and writes -/

/-- C21, as stated, fails: the segment `"k":"a"b"` decodes to the value `ab`; the quote inside
the outer pair is removed with the outer ones. -/
theorem inner_quote_is_removed :
    SimpleJSON.parse Examples.innerQuote = [("k".toList, "ab".toList)] ∧
    SimpleJSON.parse Examples.innerQuote ≠ [("k".toList, "a\"b".toList)] := by
  decide

/-- C21, amended: for every segment with a colon, written as blanks, key, blanks, colon,
blanks, value, blanks, where key and value neither start nor end with a space or tab and the key
has no colon, the loop body of `parse` assigns to the key without any of its double quotes the
value without any of its double quotes: the surrounding blanks are removed, every quote
character is removed wherever it stands, and an unquoted key or value is kept as is. -/
theorem segment_loses_blanks_and_every_quote (result : Object)
    (ws1 key ws2 ws3 value ws4 : Str)
    (h1 : ∀ c ∈ ws1, c ∈ blanks) (h2 : ∀ c ∈ ws2, c ∈ blanks)
    (h3 : ∀ c ∈ ws3, c ∈ blanks) (h4 : ∀ c ∈ ws4, c ∈ blanks)
    (hk : ':' ∉ key) (htk : Trimmed key) (htv : Trimmed value) :
    SimpleJSON.parsePair result ((ws1 ++ key ++ ws2) ++ ':' :: (ws3 ++ value ++ ws4)) =
      result.set (key.filter (fun c => c != '"')) (value.filter (fun c => c != '"')) ∧
    '"' ∉ key.filter (fun c => c != '"') ∧ '"' ∉ value.filter (fun c => c != '"') ∧
    ('"' ∉ key → key.filter (fun c => c != '"') = key) ∧
    ('"' ∉ value → value.filter (fun c => c != '"') = value) :=
  ⟨SimpleJSON.parsePair_cores result ws1 key ws2 ws3 value ws4 h1 h2 h3 h4 hk htk htv,
    SimpleJSON.quote_not_mem_removeQuotes key, SimpleJSON.quote_not_mem_removeQuotes value,
    SimpleJSON.removeQuotes_of_not_mem key, SimpleJSON.removeQuotes_of_not_mem value⟩

/-- Witness of the amended C21: the segment ` "k" :`, tab, `"a"b" ` gives the value `ab`. -/
theorem segment_loses_blanks_and_every_quote_witness :
    Trimmed "\"k\"".toList ∧ Trimmed "\"a\"b\"".toList ∧
    SimpleJSON.parsePair []
      ((" ".toList ++ "\"k\"".toList ++ " ".toList) ++
        ':' :: ("\t".toList ++ "\"a\"b\"".toList ++ " ".toList)) =
      [("k".toList, "ab".toList)] :=
  ⟨by decide, by decide,
    (segment_loses_blanks_and_every_quote [] " ".toList "\"k\"".toList " ".toList "\t".toList
      "\"a\"b\"".toList " ".toList (by decide) (by decide) (by decide) (by decide) (by decide)
      (by decide) (by decide)).1.trans (by decide)⟩

/-- C22, as stated, fails: the mapping with the value `a`, LF, `b` is written with the line
feed in it. -/
theorem stringify_keeps_line_feed :
    '\n' ∈ SimpleJSON.stringify IterationOrder.insertion Examples.lineFeedValue := by
  decide

/-- C22, amended: for every mapping whose keys and values contain no newline character,
`stringify` gives a single line: it contains no newline character. -/
theorem stringify_is_single_line (ord : IterationOrder) (m : Object)
    (h : ∀ e ∈ m, '\n' ∉ e.1 ∧ '\n' ∉ e.2) : '\n' ∉ SimpleJSON.stringify ord m := by
  rw [SimpleJSON.stringify_eq_render]
  intro hmem
  simp only [List.mem_append, List.mem_singleton] at hmem
  rcases hmem with (hmem | hmem) | hmem
  · exact absurd hmem (by decide)
  · rcases SimpleJSON.mem_joinComma _ _ hmem with hc | ⟨s, hs, hc⟩
    · exact absurd hc (by decide)
    · obtain ⟨e, he, rfl⟩ := List.mem_map.mp hs
      have hm := h e ((ord.perm m).mem_iff.mp he)
      rcases SimpleJSON.mem_renderEntry e _ hc with h1 | h1 | h1 | h1
      · exact absurd h1 (by decide)
      · exact absurd h1 (by decide)
      · exact hm.1 h1
      · exact hm.2 h1
  · exact absurd hmem (by decide)

/-- Witness of the amended C22: the acknowledgment. -/
theorem stringify_is_single_line_witness :
    (∀ e ∈ Examples.ackMap, '\n' ∉ e.1 ∧ '\n' ∉ e.2) ∧
    '\n' ∉ SimpleJSON.stringify IterationOrder.reversed Examples.ackMap :=
  ⟨by decide, stringify_is_single_line IterationOrder.reversed Examples.ackMap (by decide)⟩

/-- C23: for every mapping, `stringify` gives an opening brace, the entries of the mapping, each
once and in some order, each written `"key":"value"`, with one comma between consecutive
entries, then a closing brace, and no other character; the empty mapping gives the two braces
and a mapping of two entries gives one of the two orderings. -/
theorem stringify_shape (ord : IterationOrder) (m : Object) :
    (∃ es : List (Str × Str), List.Perm es m ∧
      SimpleJSON.stringify ord m = ['\x7b'] ++ joinComma (es.map renderEntry) ++ ['\x7d']) ∧
    SimpleJSON.stringify ord [] = ['\x7b', '\x7d'] ∧
    (∀ a b : Str × Str,
      SimpleJSON.stringify ord [a, b] =
        ['\x7b'] ++ renderEntry a ++ [','] ++ renderEntry b ++ ['\x7d'] ∨
      SimpleJSON.stringify ord [a, b] =
        ['\x7b'] ++ renderEntry b ++ [','] ++ renderEntry a ++ ['\x7d']) := by
  refine ⟨⟨ord.enum m, ord.perm m, SimpleJSON.stringify_eq_render ord m⟩, ?_, ?_⟩
  · have h : ord.enum [] = [] := List.Perm.eq_nil (ord.perm [])
    rw [SimpleJSON.stringify_eq_render, h]
    rfl
  · intro a b
    have hp := ord.perm [a, b]
    obtain ⟨x, y, hxy⟩ := List.length_eq_two.mp hp.length_eq
    rw [SimpleJSON.stringify_eq_render, hxy]
    rw [hxy] at hp
    have hx : x ∈ [a, b] := hp.mem_iff.mp (by simp)
    simp only [List.mem_cons, List.mem_singleton, List.not_mem_nil, or_false] at hx
    rcases hx with hx | hx
    · subst hx
      have hy : y = b := by
        have := (List.perm_cons x).mp hp
        simpa using this
      subst hy
      left
      simp [joinComma]
    · subst hx
      have hy : y = a := by
        have := (List.perm_cons x).mp (hp.trans (List.Perm.swap x a []))
        simpa using this
      subst hy
      right
      simp [joinComma]

/-- C24: `parse` is total.  For every input the call returns the mapping built by its loop and
raises nothing, because the positions it gives to `substr` lie within the string: the position
after a colon that `find` located is at most the size, and so is the first non-blank position
`trim` starts from. -/
theorem parse_is_total (json : Str) :
    (∃ m, SimpleJSON.parseChecked json = Except.ok m) ∧
    (∀ (pair : Str) (colonPos : Nat), find ':' pair = some colonPos →
      colonPos + 1 ≤ pair.length ∧
      SimpleJSON.substrFromChecked pair (colonPos + 1) =
        Except.ok (substrFrom pair (colonPos + 1))) ∧
    (∀ str : Str, SimpleJSON.trimChecked str = Except.ok (trim str)) := by
  refine ⟨⟨_, SimpleJSON.parseChecked_eq json⟩, ?_, SimpleJSON.trimChecked_eq⟩
  intro pair colonPos h
  have hlt := find_lt_length ':' pair colonPos h
  have hle : ¬ colonPos + 1 > pair.length := by omega
  exact ⟨by omega, by simp only [SimpleJSON.substrFromChecked, hle, if_false]⟩

/-- Witness of C24: the empty input, an input of delimiters only, and a segment that is only
blanks around a colon. -/
theorem parse_is_total_witness :
    (∃ m, SimpleJSON.parseChecked [] = Except.ok m) ∧
    (∃ m, SimpleJSON.parseChecked "\x7b,,:,\"\x7d".toList = Except.ok m) ∧
    (∃ m, SimpleJSON.parseChecked " \t: ".toList = Except.ok m) :=
  ⟨(parse_is_total []).1, (parse_is_total "\x7b,,:,\"\x7d".toList).1,
    (parse_is_total " \t: ".toList).1⟩



/-! ## The line channels -/

/-- C25, as stated, fails: of the bytes the firmware transmits (the message, CR, LF, then more)
both `readLine` return the message followed by the CR. -/
theorem readLine_keeps_carriage_return :
    (SerialPort.readLine Examples.firmwareBytes).1 = Examples.lockedEvent ++ ['\r'] ∧
    (TcpServer.readLine Examples.firmwareBytes).1 = Examples.lockedEvent ++ ['\r'] ∧
    '\r' ∈ (SerialPort.readLine Examples.firmwareBytes).1 ∧
    '\r' ∈ (TcpServer.readLine Examples.firmwareBytes).1 := by
  decide

/-- C25, amended: for every incoming byte stream that contains a line feed, `readLine` of the
serial port and of the socket return the bytes that precede the first line feed, unchanged, and
leave the bytes after it: the line contains no line feed, and a CR in it is kept (it is
`SimpleJSON::parse` that drops CR, so the line decodes as it would without its CR). -/
theorem readLine_returns_bytes_before_line_feed (line rest : Str) (h : '\n' ∉ line) :
    SerialPort.readLine (line ++ '\n' :: rest) = (line, rest) ∧
    TcpServer.readLine (line ++ '\n' :: rest) = (line, rest) ∧
    '\n' ∉ (SerialPort.readLine (line ++ '\n' :: rest)).1 ∧
    '\n' ∉ (TcpServer.readLine (line ++ '\n' :: rest)).1 ∧
    SimpleJSON.parse line = SimpleJSON.parse (line.filter (fun c => c != '\r')) := by
  have hs := serial_readLine_append line rest h
  have ht := tcp_readLine_append line rest h
  refine ⟨hs, ht, by rw [hs]; exact h, by rw [ht]; exact h, ?_⟩
  unfold SimpleJSON.parse
  simp only [List.filter_filter]
  have : (fun c : Char => (!SimpleJSON.isRemoved c) && (c != '\r')) =
      (fun c : Char => !SimpleJSON.isRemoved c) := by
    funext c
    by_cases hc : c = '\r'
    · subst hc; decide
    · simp [hc]
  rw [this]

/-- Witness of the amended C25: the bytes the firmware transmits. -/
theorem readLine_returns_bytes_before_line_feed_witness :
    '\n' ∉ Examples.lockedEvent ++ ['\r'] ∧
    SerialPort.readLine Examples.firmwareBytes =
      (Examples.lockedEvent ++ ['\r'], "next".toList) :=
  ⟨by decide, by
    have hb : Examples.firmwareBytes =
        (Examples.lockedEvent ++ ['\r']) ++ '\n' :: "next".toList := by decide
    rw [hb]
    exact (readLine_returns_bytes_before_line_feed (Examples.lockedEvent ++ ['\r'])
      "next".toList (by decide)).1⟩

/-! ## The client adapter and the relay -/

/-- C26, as stated, fails: the peer line with source "stm32", event "door_locked", type
"sync_response" and door_state "ajar" is accepted by the relay as a DeviceEvent and forwarded;
the relay ends "locked", and the client, which tests the type first, caches "ajar". -/
theorem forwarded_line_can_mislead_client :
    (SimpleJSON.parse Examples.doubleKindEvent).find "source".toList = some "stm32".toList ∧
    (SimpleJSON.parse Examples.doubleKindEvent).find "event".toList =
      some "door_locked".toList ∧
    tcpWrites (DoorRelayService.handleSerialMessage IterationOrder.insertion Examples.dbAccepts
      Examples.freshWithClient Examples.doubleKindEvent).2 = [Examples.doubleKindEvent] ∧
    (DoorRelayService.handleSerialMessage IterationOrder.insertion Examples.dbAccepts
      Examples.freshWithClient Examples.doubleKindEvent).1.current_door_state_ =
        "locked".toList ∧
    (DoorControlClient.handleMessage DoorControlClient.new
      Examples.doubleKindEvent).getCurrentState = "ajar".toList := by
  decide

/-- C26, amended: for every peer line that `handleSerialMessage` accepts as a DeviceEvent with
event "door_locked" or "door_unlocked" while a client is connected, whose row the database
accepts and whose decoded mapping does not have type = "sync_response", the line is forwarded
to the client, and after `DoorControlClient::handleMessage` handles it the client's cached door
state equals the relay's door state. -/
theorem forwarded_event_keeps_client_in_step (ord : IterationOrder) (env : LogEnv)
    (self : DoorRelayService) (client : DoorControlClient) (message ev : Str)
    (hsrc : (SimpleJSON.parse message).find "source".toList = some "stm32".toList)
    (hev : (SimpleJSON.parse message).find "event".toList = some ev)
    (hrec : ev = "door_locked".toList ∨ ev = "door_unlocked".toList)
    (hclient : self.hasClient = true)
    (hprep : env.prepareOk = true) (hstep : env.stepOk = true)
    (hkind : (SimpleJSON.parse message).find "type".toList ≠ some "sync_response".toList) :
    tcpWrites (DoorRelayService.handleSerialMessage ord env self message).2 = [message] ∧
    (DoorControlClient.handleMessage client message).getCurrentState =
      (DoorRelayService.handleSerialMessage ord env self message).1.current_door_state_ := by
  obtain ⟨heff, -⟩ :=
    DoorRelayService.handleSerialMessage_ok ord env self message ev hsrc hev hprep hstep
  obtain ⟨hst, -⟩ := DoorRelayService.handleSerialMessage_state ord env self message ev hsrc hev
  refine ⟨by rw [heff, hclient]; rfl, ?_⟩
  unfold DoorControlClient.getCurrentState
  rw [DoorControlClient.handleMessage_event client message ev _ hkind hev hsrc, hst]
  rcases hrec with h | h
  · simp only [h, if_true]
  · have hne : "door_unlocked".toList ≠ "door_locked".toList := by decide
    simp only [h, hne, if_false, if_true]

/-- Witness of the amended C26: the `door_unlocked` line forwarded to a new client. -/
theorem forwarded_event_keeps_client_in_step_witness :
    (SimpleJSON.parse Examples.unlockedEvent).find "source".toList = some "stm32".toList ∧
    (SimpleJSON.parse Examples.unlockedEvent).find "event".toList =
      some "door_unlocked".toList ∧
    (SimpleJSON.parse Examples.unlockedEvent).find "type".toList ≠
      some "sync_response".toList ∧
    (DoorControlClient.handleMessage DoorControlClient.new
      Examples.unlockedEvent).getCurrentState =
      (DoorRelayService.handleSerialMessage IterationOrder.insertion Examples.dbAccepts
        Examples.freshWithClient Examples.unlockedEvent).1.current_door_state_ :=
  ⟨by decide, by decide, by decide,
    (forwarded_event_keeps_client_in_step IterationOrder.insertion Examples.dbAccepts
      Examples.freshWithClient DoorControlClient.new Examples.unlockedEvent
      "door_unlocked".toList (by decide) (by decide) (Or.inr rfl) rfl rfl rfl (by decide)).2⟩

/-- C27: for every client, `sendLockCommand` writes exactly one line, which decodes to exactly
{command: "lock", source: "laptop"}; `sendUnlockCommand` writes exactly one line, which decodes
to exactly {command: "unlock", source: "laptop"}; `requestSync` writes exactly one line, which
decodes to exactly {type: "SYNC"}; and after each of the three `getCurrentState()` returns what
it returned before. -/
theorem client_sends_without_changing_state (ord : IterationOrder)
    (client : DoorControlClient) :
    (∃ line, (DoorControlClient.sendLockCommand ord client).2 = [line] ∧
      Object.sameMap (SimpleJSON.parse line)
        [("command".toList, "lock".toList), ("source".toList, "laptop".toList)]) ∧
    (DoorControlClient.sendLockCommand ord client).1.getCurrentState =
      client.getCurrentState ∧
    (∃ line, (DoorControlClient.sendUnlockCommand ord client).2 = [line] ∧
      Object.sameMap (SimpleJSON.parse line)
        [("command".toList, "unlock".toList), ("source".toList, "laptop".toList)]) ∧
    (DoorControlClient.sendUnlockCommand ord client).1.getCurrentState =
      client.getCurrentState ∧
    (∃ line, (DoorControlClient.requestSync ord client).2 = [line] ∧
      Object.sameMap (SimpleJSON.parse line) [("type".toList, "SYNC".toList)]) ∧
    (DoorControlClient.requestSync ord client).1.getCurrentState = client.getCurrentState := by
  have hl := SimpleJSON.parse_stringify_sameMap ord DoorControlClient.lockObject (by decide)
    (by decide) (by decide)
  have hu := SimpleJSON.parse_stringify_sameMap ord DoorControlClient.unlockObject (by decide)
    (by decide) (by decide)
  have hs := SimpleJSON.parse_stringify_sameMap ord DoorControlClient.syncObject (by decide)
    (by decide) (by decide)
  rw [DoorControlClient.lockObject_eq] at hl
  rw [DoorControlClient.unlockObject_eq] at hu
  rw [DoorControlClient.syncObject_eq] at hs
  exact ⟨⟨_, rfl, hl⟩, rfl, ⟨_, rfl, hu⟩, rfl, ⟨_, rfl, hs⟩, rfl⟩

/-! ## The threaded relay -/

/-- C28, as stated, fails: a new `DoorServer` has status "UNKNOWN"; after
`processMessage(message, "laptop")` for the lock message of the laptop its status is
"LOCKED". -/
theorem laptop_message_changes_status :
    DoorServer.new.current_door_status = "UNKNOWN".toList ∧
    (DoorServer.processMessage ⟨true, "2025-06-08 10:25:01".toList⟩ DoorServer.new
      Examples.laptopLock "laptop".toList).1.current_door_status = "LOCKED".toList := by
  decide

/-- C28, amended: for every message string and whichever device it came from,
`DoorServer::processMessage` leaves `current_door_status` unchanged when the message lacks a
non-empty source, event or timestamp value, and when its event is none of "lock", "unlock",
"error"; otherwise the status becomes "LOCKED", "UNLOCKED" or "ERROR" according to the event,
also for a message received from the laptop. -/
theorem processMessage_status_follows_event (env : ServerEnv) (self : DoorServer)
    (jsonMessage sourceDevice : Str) :
    (DoorServer.processMessage env self jsonMessage sourceDevice).1.current_door_status =
      (if DoorServer.parseJSONValue jsonMessage "source".toList = [] ∨
          DoorServer.parseJSONValue jsonMessage "event".toList = [] ∨
          DoorServer.parseJSONValue jsonMessage "timestamp".toList = [] then
        self.current_door_status
       else if DoorServer.parseJSONValue jsonMessage "event".toList = "lock".toList then
         "LOCKED".toList
       else if DoorServer.parseJSONValue jsonMessage "event".toList = "unlock".toList then
         "UNLOCKED".toList
       else if DoorServer.parseJSONValue jsonMessage "event".toList = "error".toList then
         "ERROR".toList
       else self.current_door_status) :=
  DoorServer.processMessage_status env self jsonMessage sourceDevice

/-! ## The domain of the round trip, and the initial state -/

/-- C29: for a mapping with one entry per key, the codec round-trips exactly on the mappings
whose keys contain none of `{ } , : "` CR LF and whose values contain none of `{ } , "` CR LF:
on these, `parse (stringify m)` has the entries of `m` whatever the iteration order (colons,
spaces and tabs inside values, leading and trailing blanks, empty keys and values included), and
a mapping that comes back unchanged is one of these. -/
theorem roundtrip_exact_domain (ord : IterationOrder) (m : Object) (hnd : m.keys.Nodup) :
    (((∀ e ∈ m, ∀ c ∈ e.1, c ∉ keyForbidden) ∧ (∀ e ∈ m, ∀ c ∈ e.2, c ∉ valueForbidden)) →
      Object.sameMap (SimpleJSON.parse (SimpleJSON.stringify ord m)) m) ∧
    (Object.sameMap (SimpleJSON.parse (SimpleJSON.stringify ord m)) m →
      (∀ e ∈ m, ∀ c ∈ e.1, c ∉ keyForbidden) ∧ (∀ e ∈ m, ∀ c ∈ e.2, c ∉ valueForbidden)) := by
  constructor
  · intro h
    exact SimpleJSON.parse_stringify_sameMap ord m hnd h.1 h.2
  · intro h
    have hmem : ∀ e ∈ m, e ∈ SimpleJSON.parse (SimpleJSON.stringify ord m) :=
      fun e he => (List.Perm.mem_iff h).mpr he
    exact ⟨fun e he => SimpleJSON.parse_key_clean _ e (hmem e he),
      fun e he => SimpleJSON.parse_value_clean _ e (hmem e he)⟩

/-- Witness of C29: a mapping with a timestamp between a leading space and a trailing tab, an
empty key, a value with a space inside, and an empty value. -/
theorem roundtrip_exact_domain_witness :
    Examples.oddMap.keys.Nodup ∧
    Object.sameMap
      (SimpleJSON.parse (SimpleJSON.stringify IterationOrder.reversed Examples.oddMap))
      Examples.oddMap :=
  ⟨by decide,
    (roundtrip_exact_domain IterationOrder.reversed Examples.oddMap (by decide)).1
      ⟨by decide, by decide⟩⟩

/-- C30: a relay just constructed answers a SyncRequest with one line that decodes to exactly
{type: "sync_response", door_state: "locked", last_source: "", last_timestamp: ""}; and in every
state the relay can reach the door state is "locked" or "unlocked", never "unknown". -/
theorem relay_starts_locked_and_never_unknown (ord : IterationOrder) (db : DatabaseLogger)
    (message : Str) (s : DoorRelayService)
    (hsync : (SimpleJSON.parse message).find "type".toList = some "SYNC".toList)
    (hreach : DoorRelayService.Reachable ord s) :
    (∃ line,
      (DoorRelayService.handleTcpMessage ord (DoorRelayService.new db) message).2 =
        [Effect.tcpWrite line] ∧
      Object.sameMap (SimpleJSON.parse line)
        [("type".toList, "sync_response".toList), ("door_state".toList, "locked".toList),
          ("last_source".toList, []), ("last_timestamp".toList, [])]) ∧
    (s.current_door_state_ = "locked".toList ∨ s.current_door_state_ = "unlocked".toList) ∧
    s.current_door_state_ ≠ "unknown".toList := by
  have hstate : s.current_door_state_ = "locked".toList ∨
      s.current_door_state_ = "unlocked".toList := by
    obtain ⟨db0, inputs, rfl⟩ := hreach
    exact DoorRelayService.run_doorState ord inputs _ (Or.inl rfl)
  refine ⟨⟨_, DoorRelayService.handleTcpMessage_sync ord _ message hsync,
    DoorRelayService.parse_stringify_syncResponse ord (DoorRelayService.new db)
      (DoorRelayService.new_cleanFields db)⟩, hstate, ?_⟩
  rcases hstate with h | h <;> rw [h] <;> decide

/-- Witness of C30: the SyncRequest, and the relay that handled the `door_unlocked` line. -/
theorem relay_starts_locked_and_never_unknown_witness :
    (SimpleJSON.parse Examples.syncRequest).find "type".toList = some "SYNC".toList ∧
    DoorRelayService.Reachable IterationOrder.insertion Examples.unlockedRelay ∧
    Examples.unlockedRelay.current_door_state_ ≠ "unknown".toList :=
  ⟨by decide,
    ⟨⟨[], []⟩, [DoorRelayService.Input.serial Examples.unlockedEvent Examples.dbAccepts], rfl⟩,
    (relay_starts_locked_and_never_unknown IterationOrder.insertion ⟨[], []⟩
      Examples.syncRequest Examples.unlockedRelay (by decide)
      ⟨⟨[], []⟩, [DoorRelayService.Input.serial Examples.unlockedEvent Examples.dbAccepts],
        rfl⟩).2.2⟩


end SirLocksALot
